import Mathlib

/-! Verification development for the core of the wasminspect WebAssembly
interpreter.  The canonical executor (src/crates/vm/src/executor.rs), the
defined-table instance (src/crates/wasminspect-core/src/vm/table.rs), the
init-expression evaluator and the run driver are shallowly embedded.

Conventions of the embedding:
  * Rust `i32`/`i64` payloads are `Int` values in two's-complement range;
    `u32`/`u64` bit patterns are `Nat`.  `f32`/`f64` are kept as their raw
    bit patterns (`Nat`), exactly as `Value::F32(u32)` / `Value::F64(u64)`
    store them in the source.
  * `usize` is 64 bits wide (the usual build target); `x as usize` on an
    `i32` sign-extends, and `+` on `usize` wraps modulo 2^64 (release
    semantics; a debug build would abort on the same inputs).
  * Fallible Rust code returns `Except`; a Rust panic / failed `assert!` /
    `unwrap()` on a bad store is the `Option.none` outcome.
  * Parts of the repository the executor calls that are not in the sources
    (stack.rs, memory.rs, value.rs, store resolution) are modelled from the
    specification; each such definition says so in its doc comment. -/

namespace WasmVm

/-- Wasm value types, the subset of wasmparser's `Type` the executor's values
carry (`I32 | I64 | F32 | F64`). -/
inductive ValType where
  | i32
  | i64
  | f32
  | f64
  deriving DecidableEq, Repr

/-- Runtime value (src/crates/vm value.rs `Value`): `I32(i32)`, `I64(i64)`,
`F32(u32 bits)`, `F64(u64 bits)`.  Integer payloads are the Rust signed
values; float payloads are the raw bit patterns, as in the source. -/
inductive Value where
  | I32 : Int → Value
  | I64 : Int → Value
  | F32 : Nat → Value
  | F64 : Nat → Value
  deriving DecidableEq, Repr

/-- Type tag of a value (`Value::value_type`). -/
def Value.valueType : Value → ValType
  | .I32 _ => .i32
  | .I64 _ => .i64
  | .F32 _ => .f32
  | .F64 _ => .f64

/-- Signed payload of an `I32` value (used only after a type check). -/
def Value.asI32 : Value → Int
  | .I32 n => n
  | _ => 0

/-- Signed payload of an `I64` value (used only after a type check). -/
def Value.asI64 : Value → Int
  | .I64 n => n
  | _ => 0

/-- Bit payload of an `F32` value (used only after a type check). -/
def Value.asF32 : Value → Nat
  | .F32 n => n
  | _ => 0

/-- Bit payload of an `F64` value (used only after a type check). -/
def Value.asF64 : Value → Nat
  | .F64 n => n
  | _ => 0

/-- Unsigned 32-bit view of a signed payload (Rust `x as u32`). -/
def toU32 (x : Int) : Nat := (x % (2 ^ 32 : Int)).toNat

/-- Unsigned 64-bit view of a signed payload (Rust `x as u64`). -/
def toU64 (x : Int) : Nat := (x % (2 ^ 64 : Int)).toNat

/-- Two's-complement reading of the low `w` bits of a natural number. -/
def toSigned (w : Nat) (n : Nat) : Int :=
  let m := n % 2 ^ w
  if m < 2 ^ (w - 1) then (m : Int) else (m : Int) - (2 ^ w : Nat)

/-- Rust `base as usize` for an `i32` on a 64-bit target: sign-extension to
64 bits, represented as the unsigned 64-bit pattern. -/
def usizeOfI32 (x : Int) : Nat := (x % (2 ^ 64 : Int)).toNat

/-- Effective address actually computed by `Executor::load` / `store`:
`base_addr as usize + offset`, with the 64-bit wrap of release builds. -/
def effAddr (base : Int) (offset : Nat) : Nat :=
  (usizeOfI32 base + offset) % 2 ^ 64

/-- Stack error (stack.rs is not among the sources). Modelled from the spec:
section 4.2 gives `pop_value() → v | StackError::EmptyOrTypeMismatch` and the
symmetric label/frame contracts; a single error kind suffices. -/
inductive StackError where
  | emptyOrTypeMismatch
  deriving DecidableEq, Repr

/-- Memory error taxonomy (memory.rs is not among the sources). Modelled from
the spec: `Trap.Memory(OutOfBounds | GrowError)`. -/
inductive MemError where
  | outOfBounds
  | growError
  deriving DecidableEq, Repr

/-- Table error (src/crates/wasminspect-core/src/vm/table.rs `Error`):
`AccessOutOfBounds(Option<usize>, usize)` and `UninitializedElement(usize)`. -/
inductive TableError where
  | accessOutOfBounds (tryToAccess : Option Nat) (memorySize : Nat)
  | uninitializedElement (addr : Nat)
  deriving DecidableEq, Repr

/-- Value / arithmetic error (value.rs is not among the sources). Modelled
from the spec: `Trap.Value(IntegerDivByZero | IntegerOverflow |
InvalidConversionToInt)`. -/
inductive ValueErr where
  | integerDivByZero
  | integerOverflow
  | invalidConversionToInt
  deriving DecidableEq, Repr

/-- Function type (`wasmparser::FuncType`): parameter and return types. -/
structure FuncType where
  params : List ValType
  returns : List ValType
  deriving DecidableEq, Repr

/-- Trap taxonomy (src/crates/vm/src/executor.rs `enum Trap`). -/
inductive Trap where
  | unreachable
  | memory : MemError → Trap
  | stack : StackError → Trap
  | table : TableError → Trap
  | value : ValueErr → Trap
  | indirectCallTypeMismatch (name : String) (expected actual : FuncType)
  | directCallTypeMismatch (funcName : String) (expected actual : List ValType)
  | unexpectedStackValueType (expected actual : ValType)
  | undefinedFunc (idx : Nat)
  deriving DecidableEq, Repr

/-- Signal returned by a step (src executor.rs `enum Signal`):
`Next`, `Breakpoint`, `End`. -/
inductive Signal where
  | next
  | breakpoint
  | end_
  deriving DecidableEq, Repr

/-- Program counter (stack.rs is not among the sources). Modelled from the
spec: `(executing function address, instruction index)`; the crates/vm
variant also carries the module index, as `ProgramCounter::new(module_index,
exec_addr, inst_index)` shows. -/
structure ProgramCounter where
  moduleIndex : Nat
  execAddr : Nat
  instIndex : Nat
  deriving DecidableEq, Repr

/-- Control label (stack.rs is not among the sources). Modelled from the
spec: `Block(arity)`, `Loop(loop_header_pc, arity=0)`, `If(arity)`,
`Return(arity)`. -/
inductive Label where
  | block (arity : Nat)
  | loop (headerPc : Nat)
  | ifL (arity : Nat)
  | ret (arity : Nat)
  deriving DecidableEq, Repr

/-- Arity carried by a label on branch; a loop label's arity is 0. -/
def Label.arity : Label → Nat
  | .block a => a
  | .loop _ => 0
  | .ifL a => a
  | .ret a => a

/-- Call frame (stack.rs is not among the sources). Modelled from the spec:
a frame owns the executing function address, the local slot vector
(parameters then zero-initialized locals) and an optional `ret_pc`
(`None` marks the root frame). -/
structure CallFrame where
  moduleIndex : Nat
  execAddr : Nat
  locals : List Value
  retPc : Option ProgramCounter
  deriving DecidableEq, Repr

/-- Stack entry (spec section 3): `Value(Value)`, `Label(Label)`, or
`Activation(CallFrame)`. -/
inductive StackValue where
  | value : Value → StackValue
  | label : Label → StackValue
  | activation : CallFrame → StackValue
  deriving DecidableEq, Repr

/-- The interpreter stack: a single vector of tagged entries.  The head of
the list is the top of the stack. -/
abbrev Stack := List StackValue

/-- Predicate used by `pop_while` when a branch drains value entries. -/
def StackValue.isValue : StackValue → Bool
  | .value _ => true
  | _ => false

/-- Entry is not an activation (used by `do_return`'s unwinding). -/
def StackValue.isNotActivation : StackValue → Bool
  | .activation _ => false
  | _ => true

/-- Stack `push_value` (stack.rs modelled from the spec, section 4.2). -/
def pushValue (v : Value) (s : Stack) : Stack := .value v :: s

/-- Stack `pop_value` (stack.rs modelled from the spec): popping over a
`Label` or `Activation`, or from an empty stack, is an error; the stack is
only mutated on success.  Returns the result together with the new stack. -/
def popValue (s : Stack) : Except StackError Value × Stack :=
  match s with
  | .value v :: rest => (.ok v, rest)
  | _ => (.error .emptyOrTypeMismatch, s)

/-- Stack `push_label` (stack.rs modelled from the spec). -/
def pushLabel (l : Label) (s : Stack) : Stack := .label l :: s

/-- Stack `pop_label` (stack.rs modelled from the spec): symmetric to
`pop_value`. -/
def popLabel (s : Stack) : Except StackError Label × Stack :=
  match s with
  | .label l :: rest => (.ok l, rest)
  | _ => (.error .emptyOrTypeMismatch, s)

/-- Stack `set_frame` (stack.rs modelled from the spec): appends an
`Activation` entry. -/
def setFrame (f : CallFrame) (s : Stack) : Stack := .activation f :: s

/-- Stack `current_frame` (stack.rs modelled from the spec): the topmost
activation, inspected without mutation. -/
def currentFrame : Stack → Except StackError CallFrame
  | [] => .error .emptyOrTypeMismatch
  | .activation f :: _ => .ok f
  | _ :: rest => currentFrame rest

/-- Stack `pop_frame` (stack.rs modelled from the spec): pops down to and
including the top activation. -/
def popFrame : Stack → Except StackError Unit × Stack
  | [] => (.error .emptyOrTypeMismatch, [])
  | .activation _ :: rest => (.ok (), rest)
  | _ :: rest => popFrame rest

/-- Stack `pop_while` (stack.rs modelled from the spec): pops entries while
the predicate holds, returning them in pop order with the remaining stack. -/
def popWhile (p : StackValue → Bool) : Stack → List StackValue × Stack
  | [] => ([], [])
  | e :: rest =>
    if p e then
      let (tl, s') := popWhile p rest
      (e :: tl, s')
    else ([], e :: rest)

/-- Labels of the current frame, top-first (stack.rs modelled from the spec:
`current_frame_labels` returns the labels above the topmost activation). -/
def currentFrameLabels (s : Stack) : List Label :=
  (s.takeWhile StackValue.isNotActivation).filterMap fun e =>
    match e with
    | .label l => some l
    | _ => none

/-- Stack `is_func_top_level` (stack.rs modelled from the spec): the top
activation's label stack has exactly one label (its `Return` label). -/
def isFuncTopLevel (s : Stack) : Except StackError Bool :=
  match currentFrame s with
  | .error e => .error e
  | .ok _ => .ok ((currentFrameLabels s).length == 1)

/-- Stack `is_over_top_level` (stack.rs modelled from the spec): the root
activation has been popped, i.e. no activation entry remains. -/
def isOverTopLevel (s : Stack) : Bool :=
  !s.any fun e => match e with
    | .activation _ => true
    | _ => false

/-- Stack `set_local` (stack.rs modelled from the spec): mutates the current
frame's local vector. -/
def setLocal (i : Nat) (v : Value) : Stack → Except StackError Stack
  | [] => .error .emptyOrTypeMismatch
  | .activation f :: rest => .ok (.activation { f with locals := f.locals.set i v } :: rest)
  | e :: rest =>
    match setLocal i v rest with
    | .ok s' => .ok (e :: s')
    | .error e' => .error e'

/-- Linear-memory page size in bytes. -/
def pageSize : Nat := 65536

/-- Memory instance (memory.rs is not among the sources). Modelled from the
spec: owned bytes whose length is `current_pages * 65536`, with attributes
`min_pages` and optional `max_pages`. -/
structure MemoryInstance where
  data : List Nat
  maxPages : Option Nat
  deriving DecidableEq, Repr

/-- Current page count of a memory (`data.len() / page size`). -/
def MemoryInstance.pageCount (m : MemoryInstance) : Nat := m.data.length / pageSize

/-- Bounds-checked byte write (memory.rs `store` modelled from the spec,
invariant 4: if `effective + sizeof(access) > mem.len()`, trap with
`Memory(OutOfBounds)`; otherwise the bytes are written at `effective`). -/
def MemoryInstance.storeBytes (m : MemoryInstance) (addr : Nat) (buf : List Nat) :
    Except MemError MemoryInstance :=
  if addr + buf.length > m.data.length then
    .error .outOfBounds
  else
    .ok { m with data := m.data.take addr ++ buf ++ m.data.drop (addr + buf.length) }

/-- Bounds-checked byte read (memory.rs `load_as` modelled from the spec,
invariant 4), returning `size` bytes starting at `addr`. -/
def MemoryInstance.loadBytes (m : MemoryInstance) (addr size : Nat) :
    Except MemError (List Nat) :=
  if addr + size > m.data.length then
    .error .outOfBounds
  else
    .ok ((m.data.drop addr).take size)

/-- Byte size of a value type (`std::mem::size_of::<T>()`). -/
def sizeOfVt : ValType → Nat
  | .i32 => 4
  | .i64 => 8
  | .f32 => 4
  | .f64 => 8

/-- Little-endian byte list of the low `size` bytes of a natural number
(value.rs `IntoLittleEndian` modelled from the spec: little-endian encoding
into a `sizeof(T)` buffer). -/
def natToLE : Nat → Nat → List Nat
  | 0, _ => []
  | size + 1, n => n % 256 :: natToLE size (n / 256)

/-- Natural number denoted by a little-endian byte list (value.rs
`FromLittleEndian` modelled from the spec). -/
def leToNat : List Nat → Nat
  | [] => 0
  | b :: rest => b % 256 + 256 * leToNat rest

/-- Raw bit pattern of a value, as stored to memory. -/
def Value.bits : Value → Nat
  | .I32 n => toU32 n
  | .I64 n => toU64 n
  | .F32 n => n
  | .F64 n => n

/-- Little-endian encoding of a value (`val.into_le(&mut buf)` with a
`sizeof(T)` buffer). -/
def leBytes (vt : ValType) (v : Value) : List Nat := natToLE (sizeOfVt vt) v.bits

/-- Decoding of `sizeof(T)` little-endian bytes into a value of type `T`
(the `load_as::<T>` result for a plain load). -/
def decodeValue (vt : ValType) (bytes : List Nat) : Value :=
  match vt with
  | .i32 => .I32 (toSigned 32 (leToNat bytes))
  | .i64 => .I64 (toSigned 64 (leToNat bytes))
  | .f32 => .F32 (leToNat bytes)
  | .f64 => .F64 (leToNat bytes)

/-- Function address (`FuncAddr`): a `(ModuleIndex, local index)` pair. -/
structure FuncAddr where
  moduleIndex : Nat
  idx : Nat
  deriving DecidableEq, Repr

/-- Immediate of a memory instruction (`wasmparser::MemoryImmediate`): the
executor uses only the `offset`, a `u32`. -/
structure MemArg where
  offset : Nat
  deriving DecidableEq, Repr

/-- Block type immediate (`TypeOrFuncType`), reduced to what the executor's
arity match distinguishes: `Type(EmptyBlockType)`, any other `Type(_)`, or a
`FuncType(_)` reference. -/
inductive BlockTy where
  | empty
  | val (t : ValType)
  | funcRef (idx : Nat)
  deriving DecidableEq, Repr

/-- Arity of a block type as the `Block`/`If` arms compute it: 0 for the
empty block type, 1 otherwise. -/
def BlockTy.arity : BlockTy → Nat
  | .empty => 0
  | .val _ => 1
  | .funcRef _ => 1

/-- The instruction subset of `InstructionKind` that this development
embeds: control flow, calls, constants, every memory load/store, the
integer divisions/remainders and the float min/max operations. -/
inductive Instruction where
  | unreachable
  | nop
  | block (ty : BlockTy)
  | loop (ty : BlockTy)
  | ifOp (ty : BlockTy)
  | elseOp
  | endOp
  | br (relativeDepth : Nat)
  | brIf (relativeDepth : Nat)
  | returnOp
  | call (functionIndex : Nat)
  | globalGet (globalIndex : Nat)
  | i32Const (v : Int)
  | i64Const (v : Int)
  | f32Const (bits : Nat)
  | f64Const (bits : Nat)
  | i32Load (memarg : MemArg)
  | i64Load (memarg : MemArg)
  | f32Load (memarg : MemArg)
  | f64Load (memarg : MemArg)
  | i32Load8S (memarg : MemArg)
  | i32Load8U (memarg : MemArg)
  | i32Load16S (memarg : MemArg)
  | i32Load16U (memarg : MemArg)
  | i64Load8S (memarg : MemArg)
  | i64Load8U (memarg : MemArg)
  | i64Load16S (memarg : MemArg)
  | i64Load16U (memarg : MemArg)
  | i64Load32S (memarg : MemArg)
  | i64Load32U (memarg : MemArg)
  | i32Store (memarg : MemArg)
  | i64Store (memarg : MemArg)
  | f32Store (memarg : MemArg)
  | f64Store (memarg : MemArg)
  | i32Store8 (memarg : MemArg)
  | i32Store16 (memarg : MemArg)
  | i64Store8 (memarg : MemArg)
  | i64Store16 (memarg : MemArg)
  | i64Store32 (memarg : MemArg)
  | i32DivS
  | i32DivU
  | i32RemS
  | i32RemU
  | i64DivS
  | i64DivU
  | i64RemS
  | i64RemU
  | f32Min
  | f32Max
  | f64Min
  | f64Max
  deriving Repr

/-- Defined function instance: module index, type, extra local declarations
and the instruction sequence. -/
structure DefinedFunc where
  moduleIndex : Nat
  funcType : FuncType
  localTypes : List ValType
  instructions : List Instruction
  name : String
  deriving Repr

/-- Host function instance.  The callback (`HostFuncBody`) is external code;
it receives the arguments and the caller's module index and either appends
results or fails with a trap (func.rs is not among the sources; the `&Store`
argument of the real callback is not observable through these claims and is
omitted from the model). -/
structure HostFunc where
  funcType : FuncType
  name : String
  call : List Value → Nat → Except Trap (List Value)

/-- Function instance: defined or host (`enum FunctionInstance`). -/
inductive FunctionInstance where
  | defined : DefinedFunc → FunctionInstance
  | host : HostFunc → FunctionInstance

/-- Type of a function instance (`FunctionInstance::ty`). -/
def FunctionInstance.ty : FunctionInstance → FuncType
  | .defined df => df.funcType
  | .host hf => hf.funcType

/-- Name of a function instance (`FunctionInstance::name`). -/
def FunctionInstance.name : FunctionInstance → String
  | .defined df => df.name
  | .host hf => hf.name

/-- Global instance (global.rs is not among the sources). Modelled from the
spec: `{ value: Value, mutable: bool }`; whether the slot was satisfied by
an import is recorded for the init-expression claims. -/
structure GlobalInst where
  value : Value
  isMutable : Bool
  imported : Bool
  deriving DecidableEq, Repr

/-- The store (store.rs is not among the sources). Modelled from the spec:
flat vector of function instances indexed by exec address; per-module
resolution tables mapping local indices to exec addresses (import resolution
already carried out); one memory and a global vector per module index. -/
structure Store where
  funcs : List FunctionInstance
  funcMap : List (List (Option Nat))
  memories : List MemoryInstance
  globals : List (List GlobalInst)

/-- Store `func(FuncAddr)` (modelled from the spec): resolve a local address
to `(instance, exec address)`, or `None` when unresolvable. -/
def Store.func (st : Store) (addr : FuncAddr) : Option (FunctionInstance × Nat) :=
  match st.funcMap.get? addr.moduleIndex with
  | none => none
  | some tbl =>
    match tbl.get? addr.idx with
    | none => none
    | some none => none
    | some (some execAddr) =>
      match st.funcs.get? execAddr with
      | none => none
      | some f => some (f, execAddr)

/-- Store `func_global(exec_addr)` (modelled from the spec): direct indexing
into the store-global function vector. -/
def Store.funcGlobal (st : Store) (execAddr : Nat) : Option FunctionInstance :=
  st.funcs.get? execAddr

/-- Store `global(GlobalAddr)` lookup (modelled from the spec). -/
def Store.globalGet (st : Store) (moduleIndex idx : Nat) : Option GlobalInst :=
  match st.globals.get? moduleIndex with
  | none => none
  | some gs => gs.get? idx

/-- Truncating (toward zero) signed division wrapped to `w` bits, with the
Wasm trapping behaviour (value.rs `try_wrapping_div` modelled from the spec:
div_s traps on divisor 0, on `INT_MIN / -1` it traps `IntegerOverflow`). -/
def tryWrappingDivS (w : Nat) (a b : Int) : Except ValueErr Int :=
  if b = 0 then .error .integerDivByZero
  else if a = -(2 ^ (w - 1) : Nat) ∧ b = -1 then .error .integerOverflow
  else .ok (Int.tdiv a b)

/-- Truncating signed remainder with the Wasm trapping behaviour (value.rs
`try_wrapping_rem` modelled from the spec: rem_s traps only on divisor 0;
`INT_MIN rem -1` is 0). -/
def tryWrappingRemS (a b : Int) : Except ValueErr Int :=
  if b = 0 then .error .integerDivByZero
  else .ok (Int.tmod a b)

/-- Unsigned division on `w`-bit patterns (value.rs `try_wrapping_div` on
`u32`/`u64`, modelled from the spec: traps only on divisor 0). -/
def tryWrappingDivU (a b : Nat) : Except ValueErr Nat :=
  if b = 0 then .error .integerDivByZero else .ok (a / b)

/-- Unsigned remainder on `w`-bit patterns (value.rs `try_wrapping_rem`,
modelled from the spec: traps only on divisor 0). -/
def tryWrappingRemU (a b : Nat) : Except ValueErr Nat :=
  if b = 0 then .error .integerDivByZero else .ok (a % b)

/-- NaN test on an f32 bit pattern: exponent all ones, fraction nonzero. -/
def isNaN32 (bits : Nat) : Bool :=
  (bits / 2 ^ 23) % 2 ^ 8 == 255 && bits % 2 ^ 23 != 0

/-- NaN test on an f64 bit pattern: exponent all ones, fraction nonzero. -/
def isNaN64 (bits : Nat) : Bool :=
  (bits / 2 ^ 52) % 2 ^ 11 == 2047 && bits % 2 ^ 52 != 0

/-- Sign bit of a float bit pattern of total width `w`. -/
def floatSignBit (w bits : Nat) : Bool := bits / 2 ^ (w - 1) % 2 == 1

/-- Order key of a non-NaN float bit pattern of width `w`: for non-negative
floats the IEEE ordering agrees with the bit-pattern ordering, for negative
floats it is reversed; both zeros map to 0. -/
def floatKey (w bits : Nat) : Int :=
  if bits < 2 ^ (w - 1) then (bits : Int) else -((bits - 2 ^ (w - 1) : Nat) : Int)

/-- IEEE-style minimum on float bit patterns of width `w`, with NaN
detection supplied per width (value.rs `F32::min` / `F64::min` modelled from
the spec: min must propagate NaN — if either operand is NaN the result is
NaN — and prefer `-0` over `+0`). -/
def floatMinBits (w : Nat) (nan : Nat → Bool) (a b : Nat) : Nat :=
  if nan a then a
  else if nan b then b
  else if floatKey w a < floatKey w b then a
  else if floatKey w b < floatKey w a then b
  else if floatSignBit w a then a else b

/-- IEEE-style maximum on float bit patterns of width `w` (value.rs
`F32::max` / `F64::max` modelled from the spec: max must propagate NaN and
prefer `+0` over `-0`). -/
def floatMaxBits (w : Nat) (nan : Nat → Bool) (a b : Nat) : Nat :=
  if nan a then a
  else if nan b then b
  else if floatKey w a < floatKey w b then b
  else if floatKey w b < floatKey w a then a
  else if floatSignBit w a then b else a

/-- `F32::min` on bit patterns. -/
def f32minBits (a b : Nat) : Nat := floatMinBits 32 isNaN32 a b

/-- `F32::max` on bit patterns. -/
def f32maxBits (a b : Nat) : Nat := floatMaxBits 32 isNaN32 a b

/-- `F64::min` on bit patterns. -/
def f64minBits (a b : Nat) : Nat := floatMinBits 64 isNaN64 a b

/-- `F64::max` on bit patterns. -/
def f64maxBits (a b : Nat) : Nat := floatMaxBits 64 isNaN64 a b

/-- Zero value of a value type (zero-initialized locals). -/
def zeroValue : ValType → Value
  | .i32 => .I32 0
  | .i64 => .I64 0
  | .f32 => .F32 0
  | .f64 => .F64 0

/-- Executor state: program counter, stack and the store (the store is
carried in the state because the executor mutates memories and globals
through interior mutability). -/
structure EState where
  pc : ProgramCounter
  stack : Stack
  store : Store

/-- An interceptor (interceptor.rs): invoked at function entry with the
callee's name, returning a signal or a trap. -/
abbrev Interceptor := String → Except Trap Signal

/-- The default no-op interceptor (`NopInterceptor`). -/
def nopInterceptor : Interceptor := fun _ => .ok .next

/-- Outcome of a helper drawn from the executor: `none` is a Rust panic,
otherwise a trap or a signal together with the successor state. -/
abbrev HRes := Option (Except Trap Signal × EState)

/-- Outcome of the body of `execute_inst` before its final
`is_over_top_level` check: `Sum.inl` is a trap propagated by a `?` directly
inside a match arm (an early return that bypasses the final check);
`Sum.inr` is the arm's `result` value, which does reach the final check. -/
abbrev AuxRes := Option ((Trap × EState) ⊕ (Except Trap Signal × EState))

/-- `Executor::pop_as::<T>`: pop a value and check its type tag, trapping
with `UnexpectedStackValueType(expected, actual)` on mismatch.  The value is
consumed even when the type check fails, exactly as in the source. -/
def popTyped (vt : ValType) (s : Stack) : Except Trap Value × Stack :=
  match popValue s with
  | (.error e, s') => (.error (.stack e), s')
  | (.ok v, s') =>
    if v.valueType = vt then (.ok v, s')
    else (.error (.unexpectedStackValueType vt v.valueType), s')

/-- Pop `n` values in sequence (the `for _ in 0..arity` pop loops of `End`,
`branch` and `do_return`); on the first failure the loop aborts with the
stack as mutated so far. -/
def popNValues : Nat → Stack → Except StackError (List Value) × Stack
  | 0, s => (.ok [], s)
  | n + 1, s =>
    match popValue s with
    | (.error e, s') => (.error e, s')
    | (.ok v, s') =>
      match popNValues n s' with
      | (.error e, s'') => (.error e, s'')
      | (.ok vs, s'') => (.ok (v :: vs), s'')

/-- `Executor::memory`: the current frame's module has memory index 0;
resolution failure in the store is a panic (`none`). -/
def memoryOf (s : EState) : Option (Except Trap (Nat × MemoryInstance)) :=
  match currentFrame s.stack with
  | .error e => some (.error (.stack e))
  | .ok frame =>
    match s.store.memories.get? frame.moduleIndex with
    | none => none
    | some mem => some (.ok (frame.moduleIndex, mem))

/-- `Executor::load::<T>`: pop the i32 base, compute
`base as usize + offset`, bounds-checked read of `sizeof(T)` bytes,
little-endian decode, push. -/
def loadOp (vt : ValType) (offset : Nat) (s : EState) : HRes :=
  match popTyped .i32 s.stack with
  | (.error t, st1) => some (.error t, { s with stack := st1 })
  | (.ok v, st1) =>
    let addr := effAddr v.asI32 offset
    let s1 := { s with stack := st1 }
    match memoryOf s1 with
    | none => none
    | some (.error t) => some (.error t, s1)
    | some (.ok (_, mem)) =>
      match mem.loadBytes addr (sizeOfVt vt) with
      | .error e => some (.error (.memory e), s1)
      | .ok bytes =>
        some (.ok .next, { s1 with stack := pushValue (decodeValue vt bytes) st1 })

/-- `Executor::load_extend::<T, U>`: like `load` but reading `srcSize`
bytes and sign- or zero-extending into i64 (when `dst64`) or i32. -/
def loadExtendOp (srcSize : Nat) (signed dst64 : Bool) (offset : Nat) (s : EState) : HRes :=
  match popTyped .i32 s.stack with
  | (.error t, st1) => some (.error t, { s with stack := st1 })
  | (.ok v, st1) =>
    let addr := effAddr v.asI32 offset
    let s1 := { s with stack := st1 }
    match memoryOf s1 with
    | none => none
    | some (.error t) => some (.error t, s1)
    | some (.ok (_, mem)) =>
      match mem.loadBytes addr srcSize with
      | .error e => some (.error (.memory e), s1)
      | .ok bytes =>
        let n := leToNat bytes
        let extended : Int := if signed then toSigned (8 * srcSize) n else (n : Int)
        let v' : Value := if dst64 then .I64 extended else .I32 extended
        some (.ok .next, { s1 with stack := pushValue v' st1 })

/-- `Executor::store::<T>`: pop the value, pop the i32 base, compute
`base as usize + offset`, little-endian encode into a `sizeof(T)` buffer and
write it bounds-checked. -/
def storeOp (vt : ValType) (offset : Nat) (s : EState) : HRes :=
  match popTyped vt s.stack with
  | (.error t, st1) => some (.error t, { s with stack := st1 })
  | (.ok v, st1) =>
    match popTyped .i32 st1 with
    | (.error t, st2) => some (.error t, { s with stack := st2 })
    | (.ok bv, st2) =>
      let addr := effAddr bv.asI32 offset
      let s2 := { s with stack := st2 }
      match memoryOf s2 with
      | none => none
      | some (.error t) => some (.error t, s2)
      | some (.ok (mi, mem)) =>
        match mem.storeBytes addr (leBytes vt v) with
        | .error e => some (.error (.memory e), s2)
        | .ok mem' =>
          some (.ok .next,
            { s2 with store := { s2.store with memories := s2.store.memories.set mi mem' } })

/-- `Executor::store_with_width::<T>`: like `store` but after encoding into
the `sizeof(T)` buffer only the low `width` bytes are written
(`buf.into_iter().take(width)`). -/
def storeWithWidthOp (vt : ValType) (offset width : Nat) (s : EState) : HRes :=
  match popTyped vt s.stack with
  | (.error t, st1) => some (.error t, { s with stack := st1 })
  | (.ok v, st1) =>
    match popTyped .i32 st1 with
    | (.error t, st2) => some (.error t, { s with stack := st2 })
    | (.ok bv, st2) =>
      let addr := effAddr bv.asI32 offset
      let s2 := { s with stack := st2 }
      match memoryOf s2 with
      | none => none
      | some (.error t) => some (.error t, s2)
      | some (.ok (mi, mem)) =>
        match mem.storeBytes addr ((leBytes vt v).take width) with
        | .error e => some (.error (.memory e), s2)
        | .ok mem' =>
          some (.ok .next,
            { s2 with store := { s2.store with memories := s2.store.memories.set mi mem' } })

/-- `Executor::binop`: pop rhs then lhs (both of type `vt`), push
`f lhs rhs`. -/
def binopOp (vt : ValType) (f : Value → Value → Value) (s : EState) : HRes :=
  match popTyped vt s.stack with
  | (.error t, st1) => some (.error t, { s with stack := st1 })
  | (.ok rhs, st1) =>
    match popTyped vt st1 with
    | (.error t, st2) => some (.error t, { s with stack := st2 })
    | (.ok lhs, st2) =>
      some (.ok .next, { s with stack := pushValue (f lhs rhs) st2 })

/-- `Executor::try_binop`: pop rhs then lhs, push `f lhs rhs` or trap with
`Trap::Value` on an arithmetic error. -/
def tryBinopOp (vt : ValType) (f : Value → Value → Except ValueErr Value) (s : EState) : HRes :=
  match popTyped vt s.stack with
  | (.error t, st1) => some (.error t, { s with stack := st1 })
  | (.ok rhs, st1) =>
    match popTyped vt st1 with
    | (.error t, st2) => some (.error t, { s with stack := st2 })
    | (.ok lhs, st2) =>
      match f lhs rhs with
      | .error e => some (.error (.value e), { s with stack := st2 })
      | .ok v => some (.ok .next, { s with stack := pushValue v st2 })

/-- `Executor::current_func_insts`: the instruction sequence of the function
at the PC's exec address; a host or missing function is a panic
(`defined().unwrap()`). -/
def currentFuncInsts (s : EState) : Option (List Instruction) :=
  match s.store.funcGlobal s.pc.execAddr with
  | some (.defined df) => some df.instructions
  | _ => none

/-- Forward scan of the `If` arm when the condition is 0: track nesting
depth, stop just past the matching `Else` or on the matching `End`.  Fuel
exhaustion and a missing instruction both model the source's out-of-bounds
indexing panic. -/
def scanElseEnd (insts : List Instruction) : Nat → Nat → Nat → Option Nat
  | 0, _, _ => none
  | fuel + 1, index, depth =>
    match insts.get? index with
    | none => none
    | some inst =>
      match inst with
      | .endOp =>
        if depth - 1 == 0 then some index
        else scanElseEnd insts fuel (index + 1) (depth - 1)
      | .block _ => scanElseEnd insts fuel (index + 1) (depth + 1)
      | .ifOp _ => scanElseEnd insts fuel (index + 1) (depth + 1)
      | .loop _ => scanElseEnd insts fuel (index + 1) (depth + 1)
      | .elseOp =>
        if depth == 1 then some (index + 1)
        else scanElseEnd insts fuel (index + 1) depth
      | _ => scanElseEnd insts fuel (index + 1) depth

/-- Forward scan of `branch` for a `Block`/`If` target: find the position
just past the `depth`-th matching `End` (the depth counter is updated, the
index incremented, then the zero test runs, as in the source loop). -/
def scanBranchEnd (insts : List Instruction) : Nat → Nat → Nat → Option Nat
  | 0, _, _ => none
  | fuel + 1, index, depth =>
    match insts.get? index with
    | none => none
    | some inst =>
      let depth' :=
        match inst with
        | .endOp => depth - 1
        | .block _ => depth + 1
        | .ifOp _ => depth + 1
        | .loop _ => depth + 1
        | _ => depth
      if depth' == 0 then some (index + 1)
      else scanBranchEnd insts fuel (index + 1) depth'

/-- `current_frame_labels` with the source's error on a frameless stack. -/
def currentFrameLabelsE (s : Stack) : Except StackError (List Label) :=
  match currentFrame s with
  | .error e => .error e
  | .ok _ => .ok (currentFrameLabels s)

/-- The repeated `pop_while(Value)` / `pop_label` of `branch`, once per
unwound label scope. -/
def popLabelScopes : Nat → Stack → Except StackError Unit × Stack
  | 0, s => (.ok (), s)
  | n + 1, s =>
    let (_, s1) := popWhile StackValue.isValue s
    match popLabel s1 with
    | (.error e, s2) => (.error e, s2)
    | (.ok _, s2) => popLabelScopes n s2

/-- `Executor::do_return`: read `ret_pc`, pop the declared number of return
values, unwind to the activation boundary, pop the frame, push the results
back and restore the caller PC. -/
def doReturn (s : EState) : HRes :=
  match currentFrame s.stack with
  | .error e => some (.error (.stack e), s)
  | .ok frame =>
    match s.store.funcGlobal s.pc.execAddr with
    | none => none
    | some func =>
      let arity := func.ty.returns.length
      match popNValues arity s.stack with
      | (.error e, st1) => some (.error (.stack e), { s with stack := st1 })
      | (.ok result, st1) =>
        let (_, st2) := popWhile StackValue.isNotActivation st1
        match popFrame st2 with
        | (.error e, st3) => some (.error (.stack e), { s with stack := st3 })
        | (.ok _, st3) =>
          let st4 := result.foldl (fun st v => pushValue v st) st3
          match frame.retPc with
          | some pc' => some (.ok .next, { s with stack := st4, pc := pc' })
          | none => some (.ok .next, { s with stack := st4 })

/-- `Executor::branch`: read the target label (`depth` labels outward), pop
its arity of carried values, unwind `depth + 1` label scopes, push the
carried values back, then jump: loops re-enter at the header, the `Return`
label performs a function return, and `Block`/`If` forward-scan past the
matching `End`s. -/
def branchStep (depth : Nat) (s : EState) : HRes :=
  match currentFrameLabelsE s.stack with
  | .error e => some (.error (.stack e), s)
  | .ok labels =>
    match labels.get? depth with
    | none => none
    | some label =>
      let arity := label.arity
      match popNValues arity s.stack with
      | (.error e, st1) => some (.error (.stack e), { s with stack := st1 })
      | (.ok results, st1) =>
        match popLabelScopes (depth + 1) st1 with
        | (.error e, st2) => some (.error (.stack e), { s with stack := st2 })
        | (.ok _, st2) =>
          let st3 := results.reverse.foldl (fun st v => pushValue v st) st2
          let s3 := { s with stack := st3 }
          match label with
          | .loop headerPc =>
            some (.ok .next, { s3 with pc := { s3.pc with instIndex := headerPc } })
          | .ret _ => doReturn s3
          | .block _ =>
            match currentFuncInsts s3 with
            | none => none
            | some insts =>
              match scanBranchEnd insts (insts.length + 1) s3.pc.instIndex (depth + 1) with
              | none => none
              | some idx => some (.ok .next, { s3 with pc := { s3.pc with instIndex := idx } })
          | .ifL _ =>
            match currentFuncInsts s3 with
            | none => none
            | some insts =>
              match scanBranchEnd insts (insts.length + 1) s3.pc.instIndex (depth + 1) with
              | none => none
              | some idx => some (.ok .next, { s3 with pc := { s3.pc with instIndex := idx } })

/-- The popping loop of `Executor::invoke`: one `pop_value` per parameter;
a failed pop sets `found_mismatch` but the loop keeps going. -/
def popArgsLoop : Nat → Stack → List Value × Bool × Stack
  | 0, s => ([], false, s)
  | n + 1, s =>
    match popValue s with
    | (.ok v, s') =>
      let (args, mismatch, s'') := popArgsLoop n s'
      (v :: args, mismatch, s'')
    | (.error _, s') =>
      let (args, _, s'') := popArgsLoop n s'
      (args, true, s'')

/-- `Executor::invoke`: resolve the callee, pop one argument per declared
parameter (no type comparison), trap `DirectCallTypeMismatch` when any pop
failed; then either push a new frame and `Return` label (defined callee,
asking the interceptor for the entry signal) or run the host callback. -/
def invokeStep (intc : Interceptor) (addr : FuncAddr) (s : EState) : HRes :=
  match s.store.func addr with
  | none => some (.error (.undefinedFunc addr.idx), s)
  | some (func, execAddr) =>
    let nparams := func.ty.params.length
    let (args, mismatch, st1) := popArgsLoop nparams s.stack
    if mismatch then
      some (.error (.directCallTypeMismatch func.name func.ty.params (args.map Value.valueType)),
        { s with stack := st1 })
    else
      let args := args.reverse
      let arity := func.ty.returns.length
      match func with
      | .defined df =>
        let pc' : ProgramCounter := ⟨df.moduleIndex, execAddr, 0⟩
        let frame : CallFrame :=
          ⟨df.moduleIndex, execAddr, args ++ df.localTypes.map zeroValue, some s.pc⟩
        let st2 := pushLabel (.ret arity) (setFrame frame st1)
        match intc df.name with
        | .ok sg => some (.ok sg, { s with stack := st2, pc := pc' })
        | .error t => some (.error t, { s with stack := st2, pc := pc' })
      | .host hf =>
        match hf.call args addr.moduleIndex with
        | .error t => some (.error t, { s with stack := st1 })
        | .ok results =>
          if results.length == arity then
            some (.ok .next, { s with stack := results.foldl (fun st v => pushValue v st) st1 })
          else none

/-- Lift a helper outcome into the body-outcome type (the helper's value is
the match arm's `result`, so it reaches the final check). -/
def liftH (r : HRes) : AuxRes :=
  match r with
  | none => none
  | some pr => some (.inr pr)

/-- The body of `Executor::execute_inst` (src/crates/vm/src/executor.rs):
the PC is advanced before the body runs; each arm either early-returns a
trap through `?` (`Sum.inl`) or produces the arm's `result` (`Sum.inr`),
which is subject to the final `is_over_top_level` check in `executeInst`. -/
def executeInstAux (intc : Interceptor) (inst : Instruction) (moduleIndex : Nat)
    (s0 : EState) : AuxRes :=
  let s : EState := { s0 with pc := { s0.pc with instIndex := s0.pc.instIndex + 1 } }
  match inst with
  | .unreachable => some (.inr (.error .unreachable, s))
  | .nop => some (.inr (.ok .next, s))
  | .block ty =>
    some (.inr (.ok .next, { s with stack := pushLabel (.block ty.arity) s.stack }))
  | .loop _ =>
    some (.inr (.ok .next, { s with stack := pushLabel (.loop (s.pc.instIndex - 1)) s.stack }))
  | .ifOp ty =>
    match popTyped .i32 s.stack with
    | (.error t, st1) => some (.inl (t, { s with stack := st1 }))
    | (.ok v, st1) =>
      let s1 := { s with stack := pushLabel (.ifL ty.arity) st1 }
      if v.asI32 = 0 then
        match currentFuncInsts s1 with
        | none => none
        | some insts =>
          match scanElseEnd insts (insts.length + 1) s1.pc.instIndex 1 with
          | none => none
          | some idx =>
            some (.inr (.ok .next, { s1 with pc := { s1.pc with instIndex := idx } }))
      else some (.inr (.ok .next, s1))
  | .elseOp => liftH (branchStep 0 s)
  | .endOp =>
    match isFuncTopLevel s.stack with
    | .error e => some (.inl (.stack e, s))
    | .ok true =>
      match currentFrame s.stack with
      | .error e => some (.inl (.stack e, s))
      | .ok frame =>
        match s.store.funcGlobal s.pc.execAddr with
        | none => none
        | some func =>
          let arity := func.ty.returns.length
          match popNValues arity s.stack with
          | (.error e, st1) => some (.inl (.stack e, { s with stack := st1 }))
          | (.ok result, st1) =>
            match popLabel st1 with
            | (.error e, st2) => some (.inl (.stack e, { s with stack := st2 }))
            | (.ok _, st2) =>
              match popFrame st2 with
              | (.error e, st3) => some (.inl (.stack e, { s with stack := st3 }))
              | (.ok _, st3) =>
                let st4 := result.foldl (fun st v => pushValue v st) st3
                match frame.retPc with
                | some pc' => some (.inr (.ok .next, { s with stack := st4, pc := pc' }))
                | none => some (.inr (.ok .end_, { s with stack := st4 }))
    | .ok false =>
      let (results, st1) := popWhile StackValue.isValue s.stack
      match popLabel st1 with
      | (.error e, st2) => some (.inl (.stack e, { s with stack := st2 }))
      | (.ok _, st2) =>
        let st3 := results.foldl
          (fun st e => match e with | .value v => pushValue v st | _ => st) st2
        some (.inr (.ok .next, { s with stack := st3 }))
  | .br d => liftH (branchStep d s)
  | .brIf d =>
    match popValue s.stack with
    | (.error e, st1) => some (.inl (.stack e, { s with stack := st1 }))
    | (.ok v, st1) =>
      if v ≠ Value.I32 0 then liftH (branchStep d { s with stack := st1 })
      else some (.inr (.ok .next, { s with stack := st1 }))
  | .returnOp => liftH (doReturn s)
  | .call fidx =>
    match currentFrame s.stack with
    | .error e => some (.inl (.stack e, s))
    | .ok frame => liftH (invokeStep intc ⟨frame.moduleIndex, fidx⟩ s)
  | .globalGet gidx =>
    match s.store.globalGet moduleIndex gidx with
    | none => none
    | some g => some (.inr (.ok .next, { s with stack := pushValue g.value s.stack }))
  | .i32Const v => some (.inr (.ok .next, { s with stack := pushValue (.I32 v) s.stack }))
  | .i64Const v => some (.inr (.ok .next, { s with stack := pushValue (.I64 v) s.stack }))
  | .f32Const bits => some (.inr (.ok .next, { s with stack := pushValue (.F32 bits) s.stack }))
  | .f64Const bits => some (.inr (.ok .next, { s with stack := pushValue (.F64 bits) s.stack }))
  | .i32Load m => liftH (loadOp .i32 m.offset s)
  | .i64Load m => liftH (loadOp .i64 m.offset s)
  | .f32Load m => liftH (loadOp .f32 m.offset s)
  | .f64Load m => liftH (loadOp .f64 m.offset s)
  | .i32Load8S m => liftH (loadExtendOp 1 true false m.offset s)
  | .i32Load8U m => liftH (loadExtendOp 1 false false m.offset s)
  | .i32Load16S m => liftH (loadExtendOp 2 true false m.offset s)
  | .i32Load16U m => liftH (loadExtendOp 2 false false m.offset s)
  | .i64Load8S m => liftH (loadExtendOp 1 true true m.offset s)
  | .i64Load8U m => liftH (loadExtendOp 1 false true m.offset s)
  | .i64Load16S m => liftH (loadExtendOp 2 true true m.offset s)
  | .i64Load16U m => liftH (loadExtendOp 2 false true m.offset s)
  | .i64Load32S m => liftH (loadExtendOp 4 true true m.offset s)
  | .i64Load32U m => liftH (loadExtendOp 4 false true m.offset s)
  | .i32Store m => liftH (storeOp .i32 m.offset s)
  | .i64Store m => liftH (storeOp .i64 m.offset s)
  | .f32Store m => liftH (storeOp .f32 m.offset s)
  | .f64Store m => liftH (storeOp .f64 m.offset s)
  | .i32Store8 m => liftH (storeWithWidthOp .i32 m.offset 1 s)
  | .i32Store16 m => liftH (storeWithWidthOp .i32 m.offset 2 s)
  | .i64Store8 m => liftH (storeWithWidthOp .i64 m.offset 1 s)
  | .i64Store16 m => liftH (storeWithWidthOp .i64 m.offset 2 s)
  | .i64Store32 m => liftH (storeWithWidthOp .i64 m.offset 4 s)
  | .i32DivS =>
    liftH (tryBinopOp .i32
      (fun a b => (tryWrappingDivS 32 a.asI32 b.asI32).map (.I32 ·)) s)
  | .i32DivU =>
    liftH (tryBinopOp .i32
      (fun a b => (tryWrappingDivU (toU32 a.asI32) (toU32 b.asI32)).map
        (fun n => .I32 (toSigned 32 n))) s)
  | .i32RemS =>
    liftH (tryBinopOp .i32
      (fun a b => (tryWrappingRemS a.asI32 b.asI32).map (.I32 ·)) s)
  | .i32RemU =>
    liftH (tryBinopOp .i32
      (fun a b => (tryWrappingRemU (toU32 a.asI32) (toU32 b.asI32)).map
        (fun n => .I32 (toSigned 32 n))) s)
  | .i64DivS =>
    liftH (tryBinopOp .i64
      (fun a b => (tryWrappingDivS 64 a.asI64 b.asI64).map (.I64 ·)) s)
  | .i64DivU =>
    liftH (tryBinopOp .i64
      (fun a b => (tryWrappingDivU (toU64 a.asI64) (toU64 b.asI64)).map
        (fun n => .I64 (toSigned 64 n))) s)
  | .i64RemS =>
    liftH (tryBinopOp .i64
      (fun a b => (tryWrappingRemS a.asI64 b.asI64).map (.I64 ·)) s)
  | .i64RemU =>
    liftH (tryBinopOp .i64
      (fun a b => (tryWrappingRemU (toU64 a.asI64) (toU64 b.asI64)).map
        (fun n => .I64 (toSigned 64 n))) s)
  | .f32Min =>
    liftH (binopOp .f32 (fun a b => .F32 (f32minBits a.asF32 b.asF32)) s)
  | .f32Max =>
    liftH (binopOp .f32 (fun a b => .F32 (f32maxBits a.asF32 b.asF32)) s)
  | .f64Min =>
    liftH (binopOp .f64 (fun a b => .F64 (f64minBits a.asF64 b.asF64)) s)
  | .f64Max =>
    liftH (binopOp .f64 (fun a b => .F64 (f64maxBits a.asF64 b.asF64)) s)

/-- `Executor::execute_inst`: run the body, then the final check — if the
root activation has been popped the step reports `End`, otherwise the arm's
result stands.  Early-returned traps bypass the check. -/
def executeInst (intc : Interceptor) (inst : Instruction) (moduleIndex : Nat)
    (s : EState) : HRes :=
  match executeInstAux intc inst moduleIndex s with
  | none => none
  | some (.inl (t, s')) => some (.error t, s')
  | some (.inr (r, s')) =>
    if isOverTopLevel s'.stack then some (.ok .end_, s') else some (r, s')

/-- `Executor::execute_step`: fetch the instruction at the PC from the
defined function at the exec address and run `execute_inst`. -/
def executeStep (intc : Interceptor) (s : EState) : HRes :=
  match s.store.funcGlobal s.pc.execAddr with
  | some (.defined df) =>
    match df.instructions.get? s.pc.instIndex with
    | some inst => executeInst intc inst df.moduleIndex s
    | none => none
  | _ => none

/-- Return-value extraction error (`enum ReturnValError`). -/
inductive ReturnValError where
  | typeMismatchReturnValue : Value → ValType → ReturnValError
  | stack : StackError → ReturnValError
  | noValue : ValType → ReturnValError
  deriving DecidableEq, Repr

/-- `Executor::pop_result`: pop one value per declared return type, checking
each tag after the pop. -/
def popResult : List ValType → Stack → Except ReturnValError (List Value) × Stack
  | [], s => (.ok [], s)
  | ty :: rest, s =>
    match popValue s with
    | (.error e, s') => (.error (.stack e), s')
    | (.ok v, s') =>
      if v.valueType ≠ ty then (.error (.typeMismatchReturnValue v ty), s')
      else
        match popResult rest s' with
        | (.error e, s'') => (.error e, s'')
        | (.ok vs, s'') => (.ok (v :: vs), s'')

/-- Top-level error of the run driver (`enum WasmError`). -/
inductive WasmError where
  | executionError : Trap → WasmError
  | entryFunctionNotFound : String → WasmError
  | returnValueError : ReturnValError → WasmError
  | hostExecutionError
  deriving DecidableEq, Repr

/-- The `loop` of `simple_invoke_func`: step until `End` (then pop the
declared results) or an error (returned immediately, no retry).  Fuel bounds
the iteration count; running out is the `none` outcome. -/
def simpleInvokeLoop : Nat → EState → List ValType → Option (Except WasmError (List Value))
  | 0, _, _ => none
  | fuel + 1, s, retTypes =>
    match executeStep nopInterceptor s with
    | none => none
    | some (.ok .next, s') => simpleInvokeLoop fuel s' retTypes
    | some (.ok .breakpoint, s') => simpleInvokeLoop fuel s' retTypes
    | some (.ok .end_, s') =>
      match popResult retTypes s'.stack with
      | (.ok values, _) => some (.ok values)
      | (.error e, _) => some (.error (.returnValueError e))
    | some (.error t, _) => some (.error (.executionError t))

/-- `simple_invoke_func`: host callees are dispatched directly; defined
callees get a root frame (arguments then zero locals, `ret_pc = None`), a
`Return` label, and the step loop with the no-op interceptor. -/
def simpleInvokeFunc (fuel : Nat) (addr : FuncAddr) (arguments : List Value)
    (store : Store) : Option (Except WasmError (List Value)) :=
  match store.func addr with
  | none => some (.error (.executionError (.undefinedFunc addr.idx)))
  | some (.host hf, _) =>
    match hf.call arguments addr.moduleIndex with
    | .ok results => some (.ok results)
    | .error _ => some (.error .hostExecutionError)
  | some (.defined df, execAddr) =>
    let retTypes := df.funcType.returns
    let frame : CallFrame :=
      ⟨df.moduleIndex, execAddr, arguments ++ df.localTypes.map zeroValue, none⟩
    let pc : ProgramCounter := ⟨df.moduleIndex, execAddr, 0⟩
    let stack : Stack := pushLabel (.ret retTypes.length) (setFrame frame [])
    simpleInvokeLoop fuel ⟨pc, stack, store⟩ retTypes

/-- Outcome of `eval_const_expr`: a value, an error return of the enclosing
`anyhow::Result` (only instruction-decoding can produce it; the instruction
match itself never does), or a Rust panic. -/
inductive ConstEvalOut where
  | ok : Value → ConstEvalOut
  | err
  | panicked
  deriving DecidableEq, Repr

/-- `eval_const_expr` (src/crates/vm/src/executor.rs): the first decoded
instruction is matched — the four consts yield their immediate, `GlobalGet`
reads the resolved global's current value (no import or mutability check),
and every other instruction hits `panic!("Unsupported init_expr")`.  An
unresolvable global address is also a panic. -/
def evalConstExpr (inst : Instruction) (store : Store) (moduleIndex : Nat) : ConstEvalOut :=
  match inst with
  | .i32Const v => .ok (.I32 v)
  | .i64Const v => .ok (.I64 v)
  | .f32Const bits => .ok (.F32 bits)
  | .f64Const bits => .ok (.F64 bits)
  | .globalGet gidx =>
    match store.globalGet moduleIndex gidx with
    | some g => .ok g.value
    | none => .panicked
  | _ => .panicked

/-- Defined table instance
(src/crates/wasminspect-core/src/vm/table.rs): a vector of optional
function addresses with an optional maximum. -/
structure DefinedTableInstance where
  buffer : List (Option FuncAddr)
  max : Option Nat
  deriving DecidableEq, Repr

/-- `DefinedTableInstance::new(initial, maximum)`: all slots `None`. -/
def DefinedTableInstance.new (initial : Nat) (maximum : Option Nat) : DefinedTableInstance :=
  ⟨List.replicate initial none, maximum⟩

/-- `DefinedTableInstance::buffer_len`. -/
def DefinedTableInstance.bufferLen (t : DefinedTableInstance) : Nat := t.buffer.length

/-- `DefinedTableInstance::get_at`: out-of-range indices yield
`AccessOutOfBounds(Some(index), len)`, empty slots `UninitializedElement`,
filled slots the stored address. -/
def DefinedTableInstance.getAt (t : DefinedTableInstance) (index : Nat) :
    Except TableError FuncAddr :=
  match t.buffer.get? index with
  | none => .error (.accessOutOfBounds (some index) t.bufferLen)
  | some none => .error (.uninitializedElement index)
  | some (some a) => .ok a

/-- PC with the instruction index advanced by one (the unconditional
`pc.inc_inst_index()` at the top of `execute_inst`). -/
def pcInc (pc : ProgramCounter) : ProgramCounter := { pc with instIndex := pc.instIndex + 1 }

/-- The final `is_over_top_level` rewrite of `execute_inst`, as a standalone
function on helper outcomes. -/
def finalizeRes (r : HRes) : HRes :=
  match r with
  | none => none
  | some (x, s') => if isOverTopLevel s'.stack then some (.ok .end_, s') else some (x, s')

/-- The leading run of plain values on top of the stack (the values that
consecutive `pop_value` calls can yield). -/
def leadingVals : Stack → List Value
  | .value v :: rest => v :: leadingVals rest
  | _ => []

/-- The stack left after popping every leading value. -/
def dropLeadingVals : Stack → Stack
  | .value _ :: rest => dropLeadingVals rest
  | s => s

/-- Well-formed payloads: integer payloads in two's-complement range, float
bit patterns within their width. -/
def Value.wf : Value → Prop
  | .I32 n => -(2 ^ 31) ≤ n ∧ n < 2 ^ 31
  | .I64 n => -(2 ^ 63) ≤ n ∧ n < 2 ^ 63
  | .F32 b => b < 2 ^ 32
  | .F64 b => b < 2 ^ 64

/-- The plain store instruction of each value type. -/
def storeInstFor (vt : ValType) (m : MemArg) : Instruction :=
  match vt with
  | .i32 => .i32Store m
  | .i64 => .i64Store m
  | .f32 => .f32Store m
  | .f64 => .f64Store m

/-- The plain load instruction of each value type. -/
def loadInstFor (vt : ValType) (m : MemArg) : Instruction :=
  match vt with
  | .i32 => .i32Load m
  | .i64 => .i64Load m
  | .f32 => .f32Load m
  | .f64 => .f64Load m

/-- Every memory load instruction together with its access size in bytes. -/
def loadAccessOps : List ((MemArg → Instruction) × Nat) :=
  [(.i32Load, 4), (.i64Load, 8), (.f32Load, 4), (.f64Load, 8),
   (.i32Load8S, 1), (.i32Load8U, 1), (.i32Load16S, 2), (.i32Load16U, 2),
   (.i64Load8S, 1), (.i64Load8U, 1), (.i64Load16S, 2), (.i64Load16U, 2),
   (.i64Load32S, 4), (.i64Load32U, 4)]

/-- Every memory store instruction together with the value type it pops and
its access (write) size in bytes. -/
def storeAccessOps : List ((MemArg → Instruction) × ValType × Nat) :=
  [(.i32Store, .i32, 4), (.i64Store, .i64, 8), (.f32Store, .f32, 4), (.f64Store, .f64, 8),
   (.i32Store8, .i32, 1), (.i32Store16, .i32, 2),
   (.i64Store8, .i64, 1), (.i64Store16, .i64, 2), (.i64Store32, .i64, 4)]

/-- The five narrowing stores with the value type popped and the narrowing
width in bytes used by the dispatch (`store_with_width(.., 1 | 2 | 4, ..)`). -/
def narrowStoreOps : List ((MemArg → Instruction) × ValType × Nat) :=
  [(.i32Store8, .i32, 1), (.i32Store16, .i32, 2),
   (.i64Store8, .i64, 1), (.i64Store16, .i64, 2), (.i64Store32, .i64, 4)]

/-- Effective address in the words of claim C1: `base + offset` in unsigned
32-bit arithmetic on the popped i32 base. -/
def effAddrSpecC1 (base : Int) (offset : Nat) : Nat := (toU32 base + offset) % 2 ^ 32

/-- A stack whose topmost activation exists is not over top level. -/
theorem currentFrame_ok_not_over {s : Stack} {f : CallFrame}
    (h : currentFrame s = .ok f) : isOverTopLevel s = false := by
  induction s with
  | nil => simp [currentFrame] at h
  | cons e rest ih =>
    cases e with
    | value v =>
      simp only [currentFrame] at h
      simp [isOverTopLevel, List.any_cons] at ih ⊢
      have := ih h
      simpa [isOverTopLevel] using this
    | label l =>
      simp only [currentFrame] at h
      simp [isOverTopLevel, List.any_cons] at ih ⊢
      have := ih h
      simpa [isOverTopLevel] using this
    | activation f' =>
      simp [isOverTopLevel, List.any_cons]

/-- C8: for every defined table of length `len` and every index `i`,
`get_at(i)` returns `AccessOutOfBounds` when `i ≥ len`, returns
`UninitializedElement(i)` when `i < len` and slot `i` is `None`, and returns
the stored function address when `i < len` and slot `i` is `Some`. -/
theorem c8_table_get_at (t : DefinedTableInstance) (i : Nat) :
    (t.bufferLen ≤ i →
      t.getAt i = .error (.accessOutOfBounds (some i) t.bufferLen)) ∧
    (∀ h : i < t.bufferLen, t.buffer.get ⟨i, h⟩ = none →
      t.getAt i = .error (.uninitializedElement i)) ∧
    (∀ (h : i < t.bufferLen) (a : FuncAddr), t.buffer.get ⟨i, h⟩ = some a →
      t.getAt i = .ok a) := by
  refine ⟨fun hle => ?_, fun h hnone => ?_, fun h a hsome => ?_⟩
  · have : t.buffer.get? i = none := List.get?_eq_none.mpr hle
    rw [List.get?_eq_getElem?] at this
    simp [DefinedTableInstance.getAt, this]
  · have : t.buffer.get? i = some none := by
      rw [List.get?_eq_get h, hnone]
    rw [List.get?_eq_getElem?] at this
    simp [DefinedTableInstance.getAt, this]
  · have : t.buffer.get? i = some (some a) := by
      rw [List.get?_eq_get h, hsome]
    rw [List.get?_eq_getElem?] at this
    simp [DefinedTableInstance.getAt, this]

/-- Witness for C8 at a concrete table: a table of length 2 whose slot 0 is
filled and slot 1 is empty exhibits all three behaviours. -/
theorem c8_table_get_at_witness :
    (DefinedTableInstance.mk [some ⟨0, 3⟩, none] none).getAt 5 =
        .error (.accessOutOfBounds (some 5) 2) ∧
    (DefinedTableInstance.mk [some ⟨0, 3⟩, none] none).getAt 1 =
        .error (.uninitializedElement 1) ∧
    (DefinedTableInstance.mk [some ⟨0, 3⟩, none] none).getAt 0 = .ok ⟨0, 3⟩ :=
  ⟨(c8_table_get_at (.mk [some ⟨0, 3⟩, none] none) 5).1 (by decide),
   (c8_table_get_at (.mk [some ⟨0, 3⟩, none] none) 1).2.1 (by decide) (by decide),
   (c8_table_get_at (.mk [some ⟨0, 3⟩, none] none) 0).2.2 (by decide) ⟨0, 3⟩ (by decide)⟩

/-- The init-expression behaviour claimed by C7, formalized from the
claim's words: a single const instruction or a `GlobalGet` of an imported
immutable global evaluates to a value; any other instruction is rejected
with an error return. -/
def constEvalSpecC7 (inst : Instruction) (store : Store) (mi : Nat) : ConstEvalOut :=
  match inst with
  | .i32Const v => .ok (.I32 v)
  | .i64Const v => .ok (.I64 v)
  | .f32Const b => .ok (.F32 b)
  | .f64Const b => .ok (.F64 b)
  | .globalGet g =>
    match store.globalGet mi g with
    | some gi => if gi.imported ∧ ¬ gi.isMutable then .ok gi.value else .err
    | none => .err
  | _ => .err

/-- Claim C7 as stated: the evaluator agrees with `constEvalSpecC7`
everywhere. -/
def claimC7 : Prop := ∀ inst store mi, evalConstExpr inst store mi = constEvalSpecC7 inst store mi

/-- Counterexample to C7: on a `GlobalGet` of a defined *mutable*
non-imported global the evaluator happily returns the global's value where
the claim demands a rejection, and on `Nop` it panics instead of returning
an error. -/
theorem c7_claim_negation : ¬ claimC7 := by
  intro h
  have hglob := h (.globalGet 0) ⟨[], [], [], [[⟨.I32 7, true, false⟩]]⟩ 0
  simp [evalConstExpr, constEvalSpecC7, Store.globalGet] at hglob

/-- C7 amended: the evaluator maps each of the four const instructions to
its immediate value; a `GlobalGet` of any resolvable global — with no
imported/immutable check — to that global's current value; and every other
instruction (as well as an unresolvable global) to a Rust panic, never to an
error return. -/
theorem c7_const_eval_amended (inst : Instruction) (store : Store) (mi : Nat) :
    (∀ v, inst = .i32Const v → evalConstExpr inst store mi = .ok (.I32 v)) ∧
    (∀ v, inst = .i64Const v → evalConstExpr inst store mi = .ok (.I64 v)) ∧
    (∀ b, inst = .f32Const b → evalConstExpr inst store mi = .ok (.F32 b)) ∧
    (∀ b, inst = .f64Const b → evalConstExpr inst store mi = .ok (.F64 b)) ∧
    (∀ g gi, inst = .globalGet g → store.globalGet mi g = some gi →
      evalConstExpr inst store mi = .ok gi.value) ∧
    (∀ g, inst = .globalGet g → store.globalGet mi g = none →
      evalConstExpr inst store mi = .panicked) ∧
    ((∀ v, inst ≠ .i32Const v) → (∀ v, inst ≠ .i64Const v) →
     (∀ b, inst ≠ .f32Const b) → (∀ b, inst ≠ .f64Const b) →
     (∀ g, inst ≠ .globalGet g) →
      evalConstExpr inst store mi = .panicked) ∧
    evalConstExpr inst store mi ≠ .err := by
  refine ⟨?_, ?_, ?_, ?_, ?_, ?_, ?_, ?_⟩ <;>
    cases inst <;> simp [evalConstExpr] <;> intros <;>
    first
      | rfl
      | simp_all [evalConstExpr]
      | (rename_i g
         cases hg : store.globalGet mi g <;> simp [evalConstExpr, hg])

/-- Witness for C7 amended, at a mutable non-imported global and at `Nop`:
the former evaluates, the latter panics. -/
theorem c7_const_eval_amended_witness :
    evalConstExpr (.globalGet 0) ⟨[], [], [], [[⟨.I32 9, true, false⟩]]⟩ 0 = .ok (.I32 9) ∧
    evalConstExpr .nop ⟨[], [], [], [[⟨.I32 9, true, false⟩]]⟩ 0 = .panicked :=
  ⟨(c7_const_eval_amended (.globalGet 0) ⟨[], [], [], [[⟨.I32 9, true, false⟩]]⟩ 0).2.2.2.2.1
      0 ⟨.I32 9, true, false⟩ rfl rfl,
   (c7_const_eval_amended .nop ⟨[], [], [], [[⟨.I32 9, true, false⟩]]⟩ 0).2.2.2.2.2.2.1
      (by intro v h; cases h) (by intro v h; cases h) (by intro b h; cases h)
      (by intro b h; cases h) (by intro g h; cases h)⟩

@[simp]
theorem isOverTopLevel_nil : isOverTopLevel [] = true := rfl

@[simp]
theorem isOverTopLevel_value_cons (v : Value) (s : Stack) :
    isOverTopLevel (.value v :: s) = isOverTopLevel s := by
  simp [isOverTopLevel, List.any_cons]

@[simp]
theorem isOverTopLevel_label_cons (l : Label) (s : Stack) :
    isOverTopLevel (.label l :: s) = isOverTopLevel s := by
  simp [isOverTopLevel, List.any_cons]

@[simp]
theorem isOverTopLevel_activation_cons (f : CallFrame) (s : Stack) :
    isOverTopLevel (.activation f :: s) = false := by
  simp [isOverTopLevel, List.any_cons]

/-- Evaluation of `try_binop` on a stack whose top two entries are values of
the expected type: rhs on top, then lhs. -/
theorem tryBinopOp_cons (vt : ValType) (f : Value → Value → Except ValueErr Value)
    (pc : ProgramCounter) (store : Store) (a b : Value) (rest : Stack)
    (ha : a.valueType = vt) (hb : b.valueType = vt) :
    tryBinopOp vt f ⟨pc, .value b :: .value a :: rest, store⟩ =
      match f a b with
      | .error e => some (.error (.value e), ⟨pc, rest, store⟩)
      | .ok v => some (.ok .next, ⟨pc, .value v :: rest, store⟩) := by
  simp [tryBinopOp, popTyped, popValue, ha, hb, pushValue]

theorem toU32_eq_zero_iff {b : Int} (h1 : -(2 ^ 31) ≤ b) (h2 : b < 2 ^ 31) :
    toU32 b = 0 ↔ b = 0 := by
  have e : (2 ^ 32 : Int) = 4294967296 := by norm_num
  have e31 : (2 ^ 31 : Int) = 2147483648 := by norm_num
  rw [e31] at h1 h2
  unfold toU32
  rw [e]
  omega

theorem toU64_eq_zero_iff {b : Int} (h1 : -(2 ^ 63) ≤ b) (h2 : b < 2 ^ 63) :
    toU64 b = 0 ↔ b = 0 := by
  have e : (2 ^ 64 : Int) = 18446744073709551616 := by norm_num
  have e63 : (2 ^ 63 : Int) = 9223372036854775808 := by norm_num
  rw [e63] at h1 h2
  unfold toU64
  rw [e]
  omega

/-- C5: signed and unsigned division and remainder (i32 and i64) trap with
`IntegerDivByZero` when the divisor is 0; signed division additionally traps
with `IntegerOverflow` on `INT_MIN / -1` (division only — the remainders do
not); on all other operands the quotient or remainder is pushed without a
trap.  The divisor is the top of the stack, the dividend below it. -/
theorem c5_div_rem_traps (intc : Interceptor) (mi : Nat) (pc : ProgramCounter)
    (store : Store) (rest : Stack) (hrest : isOverTopLevel rest = false) :
    (∀ a b : Int,
      executeInst intc .i32DivS mi ⟨pc, .value (.I32 b) :: .value (.I32 a) :: rest, store⟩ =
        if b = 0 then some (.error (.value .integerDivByZero), ⟨pcInc pc, rest, store⟩)
        else if a = -(2 ^ 31) ∧ b = -1 then
          some (.error (.value .integerOverflow), ⟨pcInc pc, rest, store⟩)
        else some (.ok .next, ⟨pcInc pc, .value (.I32 (Int.tdiv a b)) :: rest, store⟩)) ∧
    (∀ a b : Int, -(2 ^ 31) ≤ b → b < 2 ^ 31 →
      executeInst intc .i32DivU mi ⟨pc, .value (.I32 b) :: .value (.I32 a) :: rest, store⟩ =
        if b = 0 then some (.error (.value .integerDivByZero), ⟨pcInc pc, rest, store⟩)
        else some (.ok .next,
          ⟨pcInc pc, .value (.I32 (toSigned 32 (toU32 a / toU32 b))) :: rest, store⟩)) ∧
    (∀ a b : Int,
      executeInst intc .i32RemS mi ⟨pc, .value (.I32 b) :: .value (.I32 a) :: rest, store⟩ =
        if b = 0 then some (.error (.value .integerDivByZero), ⟨pcInc pc, rest, store⟩)
        else some (.ok .next, ⟨pcInc pc, .value (.I32 (Int.tmod a b)) :: rest, store⟩)) ∧
    (∀ a b : Int, -(2 ^ 31) ≤ b → b < 2 ^ 31 →
      executeInst intc .i32RemU mi ⟨pc, .value (.I32 b) :: .value (.I32 a) :: rest, store⟩ =
        if b = 0 then some (.error (.value .integerDivByZero), ⟨pcInc pc, rest, store⟩)
        else some (.ok .next,
          ⟨pcInc pc, .value (.I32 (toSigned 32 (toU32 a % toU32 b))) :: rest, store⟩)) ∧
    (∀ a b : Int,
      executeInst intc .i64DivS mi ⟨pc, .value (.I64 b) :: .value (.I64 a) :: rest, store⟩ =
        if b = 0 then some (.error (.value .integerDivByZero), ⟨pcInc pc, rest, store⟩)
        else if a = -(2 ^ 63) ∧ b = -1 then
          some (.error (.value .integerOverflow), ⟨pcInc pc, rest, store⟩)
        else some (.ok .next, ⟨pcInc pc, .value (.I64 (Int.tdiv a b)) :: rest, store⟩)) ∧
    (∀ a b : Int, -(2 ^ 63) ≤ b → b < 2 ^ 63 →
      executeInst intc .i64DivU mi ⟨pc, .value (.I64 b) :: .value (.I64 a) :: rest, store⟩ =
        if b = 0 then some (.error (.value .integerDivByZero), ⟨pcInc pc, rest, store⟩)
        else some (.ok .next,
          ⟨pcInc pc, .value (.I64 (toSigned 64 (toU64 a / toU64 b))) :: rest, store⟩)) ∧
    (∀ a b : Int,
      executeInst intc .i64RemS mi ⟨pc, .value (.I64 b) :: .value (.I64 a) :: rest, store⟩ =
        if b = 0 then some (.error (.value .integerDivByZero), ⟨pcInc pc, rest, store⟩)
        else some (.ok .next, ⟨pcInc pc, .value (.I64 (Int.tmod a b)) :: rest, store⟩)) ∧
    (∀ a b : Int, -(2 ^ 63) ≤ b → b < 2 ^ 63 →
      executeInst intc .i64RemU mi ⟨pc, .value (.I64 b) :: .value (.I64 a) :: rest, store⟩ =
        if b = 0 then some (.error (.value .integerDivByZero), ⟨pcInc pc, rest, store⟩)
        else some (.ok .next,
          ⟨pcInc pc, .value (.I64 (toSigned 64 (toU64 a % toU64 b))) :: rest, store⟩)) := by
  refine ⟨fun a b => ?_, fun a b hb1 hb2 => ?_, fun a b => ?_, fun a b hb1 hb2 => ?_,
          fun a b => ?_, fun a b hb1 hb2 => ?_, fun a b => ?_, fun a b hb1 hb2 => ?_⟩
  · simp only [executeInst, executeInstAux, liftH]
    rw [tryBinopOp_cons .i32 _ _ _ (.I32 a) (.I32 b) rest rfl rfl]
    simp only [Value.asI32, tryWrappingDivS, pcInc]
    have hc : ((2 ^ (32 - 1) : Nat) : Int) = 2 ^ 31 := by norm_num
    rw [hc]
    split_ifs with h1 h2 <;> simp [Except.map, hrest]
  · simp only [executeInst, executeInstAux, liftH]
    rw [tryBinopOp_cons .i32 _ _ _ (.I32 a) (.I32 b) rest rfl rfl]
    simp only [Value.asI32, tryWrappingDivU, pcInc]
    rcases eq_or_ne b 0 with hb | hb
    · subst hb; simp [toU32, Except.map, hrest]
    · have hz : ¬ toU32 b = 0 := fun h => hb ((toU32_eq_zero_iff hb1 hb2).mp h)
      simp [hz, hb, Except.map, hrest]
  · simp only [executeInst, executeInstAux, liftH]
    rw [tryBinopOp_cons .i32 _ _ _ (.I32 a) (.I32 b) rest rfl rfl]
    simp only [Value.asI32, tryWrappingRemS, pcInc]
    split_ifs with h1 <;> simp [Except.map, hrest]
  · simp only [executeInst, executeInstAux, liftH]
    rw [tryBinopOp_cons .i32 _ _ _ (.I32 a) (.I32 b) rest rfl rfl]
    simp only [Value.asI32, tryWrappingRemU, pcInc]
    rcases eq_or_ne b 0 with hb | hb
    · subst hb; simp [toU32, Except.map, hrest]
    · have hz : ¬ toU32 b = 0 := fun h => hb ((toU32_eq_zero_iff hb1 hb2).mp h)
      simp [hz, hb, Except.map, hrest]
  · simp only [executeInst, executeInstAux, liftH]
    rw [tryBinopOp_cons .i64 _ _ _ (.I64 a) (.I64 b) rest rfl rfl]
    simp only [Value.asI64, tryWrappingDivS, pcInc]
    have hc : ((2 ^ (64 - 1) : Nat) : Int) = 2 ^ 63 := by norm_num
    rw [hc]
    split_ifs with h1 h2 <;> simp [Except.map, hrest]
  · simp only [executeInst, executeInstAux, liftH]
    rw [tryBinopOp_cons .i64 _ _ _ (.I64 a) (.I64 b) rest rfl rfl]
    simp only [Value.asI64, tryWrappingDivU, pcInc]
    rcases eq_or_ne b 0 with hb | hb
    · subst hb; simp [toU64, Except.map, hrest]
    · have hz : ¬ toU64 b = 0 := fun h => hb ((toU64_eq_zero_iff hb1 hb2).mp h)
      simp [hz, hb, Except.map, hrest]
  · simp only [executeInst, executeInstAux, liftH]
    rw [tryBinopOp_cons .i64 _ _ _ (.I64 a) (.I64 b) rest rfl rfl]
    simp only [Value.asI64, tryWrappingRemS, pcInc]
    split_ifs with h1 <;> simp [Except.map, hrest]
  · simp only [executeInst, executeInstAux, liftH]
    rw [tryBinopOp_cons .i64 _ _ _ (.I64 a) (.I64 b) rest rfl rfl]
    simp only [Value.asI64, tryWrappingRemU, pcInc]
    rcases eq_or_ne b 0 with hb | hb
    · subst hb; simp [toU64, Except.map, hrest]
    · have hz : ¬ toU64 b = 0 := fun h => hb ((toU64_eq_zero_iff hb1 hb2).mp h)
      simp [hz, hb, Except.map, hrest]

/-- Witness for C5 at concrete operands: `i32.div_s(INT_MIN, -1)` traps
`IntegerOverflow`, `i64.rem_u(5, 0)` traps `IntegerDivByZero`, and
`i32.div_s(7, -2)` pushes the truncated quotient `-3`. -/
theorem c5_div_rem_traps_witness :
    executeInst nopInterceptor .i32DivS 0
        ⟨⟨0, 0, 0⟩, [.value (.I32 (-1)), .value (.I32 (-2147483648)),
          .activation ⟨0, 0, [], none⟩], ⟨[], [], [], []⟩⟩ =
      some (.error (.value .integerOverflow),
        ⟨⟨0, 0, 1⟩, [.activation ⟨0, 0, [], none⟩], ⟨[], [], [], []⟩⟩) ∧
    executeInst nopInterceptor .i64RemU 0
        ⟨⟨0, 0, 0⟩, [.value (.I64 0), .value (.I64 5),
          .activation ⟨0, 0, [], none⟩], ⟨[], [], [], []⟩⟩ =
      some (.error (.value .integerDivByZero),
        ⟨⟨0, 0, 1⟩, [.activation ⟨0, 0, [], none⟩], ⟨[], [], [], []⟩⟩) ∧
    executeInst nopInterceptor .i32DivS 0
        ⟨⟨0, 0, 0⟩, [.value (.I32 (-2)), .value (.I32 7),
          .activation ⟨0, 0, [], none⟩], ⟨[], [], [], []⟩⟩ =
      some (.ok .next,
        ⟨⟨0, 0, 1⟩, [.value (.I32 (-3)), .activation ⟨0, 0, [], none⟩], ⟨[], [], [], []⟩⟩) := by
  refine ⟨?_, ?_, ?_⟩
  · have h := (c5_div_rem_traps nopInterceptor 0 ⟨0, 0, 0⟩ ⟨[], [], [], []⟩
      [.activation ⟨0, 0, [], none⟩] (by decide)).1 (-2147483648) (-1)
    rw [h]; norm_num [pcInc]
  · have h := (c5_div_rem_traps nopInterceptor 0 ⟨0, 0, 0⟩ ⟨[], [], [], []⟩
      [.activation ⟨0, 0, [], none⟩] (by decide)).2.2.2.2.2.2.2 5 0 (by norm_num) (by norm_num)
    rw [h]; norm_num [pcInc]
  · have h := (c5_div_rem_traps nopInterceptor 0 ⟨0, 0, 0⟩ ⟨[], [], [], []⟩
      [.activation ⟨0, 0, [], none⟩] (by decide)).1 7 (-2)
    rw [h]; norm_num [pcInc]
    decide

/-- Evaluation of `binop` on a stack whose top two entries are values of
the expected type: rhs on top, then lhs. -/
theorem binopOp_cons (vt : ValType) (f : Value → Value → Value)
    (pc : ProgramCounter) (store : Store) (a b : Value) (rest : Stack)
    (ha : a.valueType = vt) (hb : b.valueType = vt) :
    binopOp vt f ⟨pc, .value b :: .value a :: rest, store⟩ =
      some (.ok .next, ⟨pc, .value (f a b) :: rest, store⟩) := by
  simp [binopOp, popTyped, popValue, ha, hb, pushValue]

/-- NaN propagation of the modelled float minimum. -/
theorem floatMinBits_nan (w : Nat) (nan : Nat → Bool) (a b : Nat)
    (h : nan a = true ∨ nan b = true) : nan (floatMinBits w nan a b) = true := by
  unfold floatMinBits
  by_cases ha : nan a = true
  · simp [ha]
  · have hb : nan b = true := by
      rcases h with h | h
      · exact absurd h ha
      · exact h
    simp [ha, hb]

/-- NaN propagation of the modelled float maximum. -/
theorem floatMaxBits_nan (w : Nat) (nan : Nat → Bool) (a b : Nat)
    (h : nan a = true ∨ nan b = true) : nan (floatMaxBits w nan a b) = true := by
  unfold floatMaxBits
  by_cases ha : nan a = true
  · simp [ha]
  · have hb : nan b = true := by
      rcases h with h | h
      · exact absurd h ha
      · exact h
    simp [ha, hb]

/-- C3: for every pair of float operands, if either operand of `f32.min`,
`f32.max`, `f64.min` or `f64.max` is NaN then the pushed result is NaN.  In
each conjunct the rhs operand `b` is the top of the stack. -/
theorem c3_float_min_max_nan (intc : Interceptor) (mi : Nat) (pc : ProgramCounter)
    (store : Store) (rest : Stack) (hrest : isOverTopLevel rest = false) :
    (∀ a b : Nat, isNaN32 a = true ∨ isNaN32 b = true →
      executeInst intc .f32Min mi ⟨pc, .value (.F32 b) :: .value (.F32 a) :: rest, store⟩ =
        some (.ok .next, ⟨pcInc pc, .value (.F32 (f32minBits a b)) :: rest, store⟩) ∧
      isNaN32 (f32minBits a b) = true) ∧
    (∀ a b : Nat, isNaN32 a = true ∨ isNaN32 b = true →
      executeInst intc .f32Max mi ⟨pc, .value (.F32 b) :: .value (.F32 a) :: rest, store⟩ =
        some (.ok .next, ⟨pcInc pc, .value (.F32 (f32maxBits a b)) :: rest, store⟩) ∧
      isNaN32 (f32maxBits a b) = true) ∧
    (∀ a b : Nat, isNaN64 a = true ∨ isNaN64 b = true →
      executeInst intc .f64Min mi ⟨pc, .value (.F64 b) :: .value (.F64 a) :: rest, store⟩ =
        some (.ok .next, ⟨pcInc pc, .value (.F64 (f64minBits a b)) :: rest, store⟩) ∧
      isNaN64 (f64minBits a b) = true) ∧
    (∀ a b : Nat, isNaN64 a = true ∨ isNaN64 b = true →
      executeInst intc .f64Max mi ⟨pc, .value (.F64 b) :: .value (.F64 a) :: rest, store⟩ =
        some (.ok .next, ⟨pcInc pc, .value (.F64 (f64maxBits a b)) :: rest, store⟩) ∧
      isNaN64 (f64maxBits a b) = true) := by
  refine ⟨fun a b h => ⟨?_, floatMinBits_nan 32 isNaN32 a b h⟩,
          fun a b h => ⟨?_, floatMaxBits_nan 32 isNaN32 a b h⟩,
          fun a b h => ⟨?_, floatMinBits_nan 64 isNaN64 a b h⟩,
          fun a b h => ⟨?_, floatMaxBits_nan 64 isNaN64 a b h⟩⟩
  · simp only [executeInst, executeInstAux, liftH]
    rw [binopOp_cons .f32 _ _ _ (.F32 a) (.F32 b) rest rfl rfl]
    simp [Value.asF32, pcInc, hrest, f32minBits]
  · simp only [executeInst, executeInstAux, liftH]
    rw [binopOp_cons .f32 _ _ _ (.F32 a) (.F32 b) rest rfl rfl]
    simp [Value.asF32, pcInc, hrest, f32maxBits]
  · simp only [executeInst, executeInstAux, liftH]
    rw [binopOp_cons .f64 _ _ _ (.F64 a) (.F64 b) rest rfl rfl]
    simp [Value.asF64, pcInc, hrest, f64minBits]
  · simp only [executeInst, executeInstAux, liftH]
    rw [binopOp_cons .f64 _ _ _ (.F64 a) (.F64 b) rest rfl rfl]
    simp [Value.asF64, pcInc, hrest, f64maxBits]

/-- Witness for C3: `f32.min(NaN, 1.0)` and `f32.max(1.0, NaN)` both push a
NaN (bit patterns: NaN `0x7FC00000 = 2143289344`, `1.0 = 0x3F800000 =
1065353216`). -/
theorem c3_float_min_max_nan_witness :
    (executeInst nopInterceptor .f32Min 0
        ⟨⟨0, 0, 0⟩, [.value (.F32 1065353216), .value (.F32 2143289344),
          .activation ⟨0, 0, [], none⟩], ⟨[], [], [], []⟩⟩ =
      some (.ok .next, ⟨⟨0, 0, 1⟩, [.value (.F32 (f32minBits 2143289344 1065353216)),
        .activation ⟨0, 0, [], none⟩], ⟨[], [], [], []⟩⟩) ∧
      isNaN32 (f32minBits 2143289344 1065353216) = true) ∧
    (executeInst nopInterceptor .f32Max 0
        ⟨⟨0, 0, 0⟩, [.value (.F32 2143289344), .value (.F32 1065353216),
          .activation ⟨0, 0, [], none⟩], ⟨[], [], [], []⟩⟩ =
      some (.ok .next, ⟨⟨0, 0, 1⟩, [.value (.F32 (f32maxBits 1065353216 2143289344)),
        .activation ⟨0, 0, [], none⟩], ⟨[], [], [], []⟩⟩) ∧
      isNaN32 (f32maxBits 1065353216 2143289344) = true) :=
  ⟨(c3_float_min_max_nan nopInterceptor 0 ⟨0, 0, 0⟩ ⟨[], [], [], []⟩
      [.activation ⟨0, 0, [], none⟩] (by decide)).1 2143289344 1065353216
      (Or.inl (by decide)),
   (c3_float_min_max_nan nopInterceptor 0 ⟨0, 0, 0⟩ ⟨[], [], [], []⟩
      [.activation ⟨0, 0, [], none⟩] (by decide)).2.1 1065353216 2143289344
      (Or.inr (by decide))⟩

/-- Claim C4 as stated: whenever the body of an instruction produces a trap
— whether early-returned by a `?` in the arm or as the arm's result —
`execute_inst` returns that trap as an `Err`; no trap is ever converted into
a `Next`, `Breakpoint` or `End` signal. -/
def claimC4 : Prop :=
  ∀ (intc : Interceptor) (inst : Instruction) (mi : Nat) (s : EState) (t : Trap) (s' : EState),
    (executeInstAux intc inst mi s = some (.inl (t, s')) →
      executeInst intc inst mi s = some (.error t, s')) ∧
    (executeInstAux intc inst mi s = some (.inr (.error t, s')) →
      executeInst intc inst mi s = some (.error t, s'))

/-- Counterexample to C4: with the root activation already popped (the state
an executor reaches after the root `End`), an `Unreachable` body produces
`Err(Trap::Unreachable)`, but the final `is_over_top_level` check of
`execute_inst` converts it into `Ok(Signal::End)`. -/
theorem c4_claim_negation : ¬ claimC4 := by
  intro h
  have h2 := (h nopInterceptor .unreachable 0 ⟨⟨0, 0, 0⟩, [], ⟨[], [], [], []⟩⟩
      .unreachable ⟨⟨0, 0, 1⟩, [], ⟨[], [], [], []⟩⟩).2 rfl
  have h3 : executeInst nopInterceptor .unreachable 0 ⟨⟨0, 0, 0⟩, [], ⟨[], [], [], []⟩⟩ =
      some (.ok .end_, ⟨⟨0, 0, 1⟩, [], ⟨[], [], [], []⟩⟩) := rfl
  rw [h3] at h2
  simp at h2

/-- C4 amended: a trap early-returned by a `?` inside a match arm always
surfaces as `Err`; a trap produced as an arm's result surfaces as `Err`
provided the stack still contains the root activation afterwards (if the
root activation has already been popped, `execute_inst` reports `End`
instead); and the `simple_invoke_func` loop returns any stepping trap
immediately as `ExecutionError`, with no retry. -/
theorem c4_trap_propagation_amended :
    (∀ (intc : Interceptor) (inst : Instruction) (mi : Nat) (s : EState) (t : Trap)
        (s' : EState),
      executeInstAux intc inst mi s = some (.inl (t, s')) →
      executeInst intc inst mi s = some (.error t, s')) ∧
    (∀ (intc : Interceptor) (inst : Instruction) (mi : Nat) (s : EState) (t : Trap)
        (s' : EState),
      executeInstAux intc inst mi s = some (.inr (.error t, s')) →
      isOverTopLevel s'.stack = false →
      executeInst intc inst mi s = some (.error t, s')) ∧
    (∀ (fuel : Nat) (s : EState) (retTypes : List ValType) (t : Trap) (s' : EState),
      executeStep nopInterceptor s = some (.error t, s') →
      simpleInvokeLoop (fuel + 1) s retTypes = some (.error (.executionError t))) := by
  refine ⟨?_, ?_, ?_⟩
  · intro intc inst mi s t s' h
    simp [executeInst, h]
  · intro intc inst mi s t s' h hover
    simp [executeInst, h, hover]
  · intro fuel s retTypes t s' h
    simp [simpleInvokeLoop, h]

/-- Witness for C4 amended: a function body starting with `unreachable`
traps, `execute_step` returns the `Err`, and the driver loop surfaces it as
`ExecutionError(Unreachable)`. -/
theorem c4_trap_propagation_amended_witness :
    simpleInvokeLoop 1
        ⟨⟨0, 0, 0⟩, [.label (.ret 0), .activation ⟨0, 0, [], none⟩],
          ⟨[.defined ⟨0, ⟨[], []⟩, [], [.unreachable, .endOp], "boom"⟩], [[some 0]], [], []⟩⟩
        [] =
      some (.error (.executionError .unreachable)) :=
  c4_trap_propagation_amended.2.2 0
    ⟨⟨0, 0, 0⟩, [.label (.ret 0), .activation ⟨0, 0, [], none⟩],
      ⟨[.defined ⟨0, ⟨[], []⟩, [], [.unreachable, .endOp], "boom"⟩], [[some 0]], [], []⟩⟩
    [] .unreachable
    ⟨⟨0, 0, 1⟩, [.label (.ret 0), .activation ⟨0, 0, [], none⟩],
      ⟨[.defined ⟨0, ⟨[], []⟩, [], [.unreachable, .endOp], "boom"⟩], [[some 0]], [], []⟩⟩
    rfl

/-- Every outcome of `do_return` is either `Ok(Next)` or a stack error. -/
theorem doReturn_shape (s : EState) (r : Except Trap Signal) (s' : EState)
    (h : doReturn s = some (r, s')) :
    r = .ok .next ∨ ∃ e, r = .error (.stack e) := by
  unfold doReturn at h
  split at h
  next e heq =>
    simp only [Option.some.injEq, Prod.mk.injEq] at h
    exact Or.inr ⟨_, h.1.symm⟩
  next frame heq =>
    split at h
    next => exact absurd h (by simp)
    next func heq2 =>
      try simp only [] at h
      split at h
      next e st1 heq3 =>
        simp only [Option.some.injEq, Prod.mk.injEq] at h
        exact Or.inr ⟨_, h.1.symm⟩
      next result st1 heq3 =>
        split at h
        next e st3 heq4 =>
          simp only [Option.some.injEq, Prod.mk.injEq] at h
          exact Or.inr ⟨_, h.1.symm⟩
        next a st3 heq4 =>
          split at h <;>
            (simp only [Option.some.injEq, Prod.mk.injEq] at h; exact Or.inl h.1.symm)

/-- Every outcome of `branch` is either `Ok(Next)` or a stack error — in
particular `branch` never raises `UnexpectedStackValueType`. -/
theorem branchStep_shape (d : Nat) (s : EState) (r : Except Trap Signal) (s' : EState)
    (h : branchStep d s = some (r, s')) :
    r = .ok .next ∨ ∃ e, r = .error (.stack e) := by
  unfold branchStep at h
  split at h
  next e heq =>
    simp only [Option.some.injEq, Prod.mk.injEq] at h
    exact Or.inr ⟨_, h.1.symm⟩
  next labels heq =>
    split at h
    next => exact absurd h (by simp)
    next label heq2 =>
      try simp only [] at h
      split at h
      next e st1 heq3 =>
        simp only [Option.some.injEq, Prod.mk.injEq] at h
        exact Or.inr ⟨_, h.1.symm⟩
      next results st1 heq3 =>
        split at h
        next e st2 heq4 =>
          simp only [Option.some.injEq, Prod.mk.injEq] at h
          exact Or.inr ⟨_, h.1.symm⟩
        next u st2 heq4 =>
          try simp only [] at h
          split at h
          next headerPc =>
            simp only [Option.some.injEq, Prod.mk.injEq] at h
            exact Or.inl h.1.symm
          next arity => exact doReturn_shape _ _ _ h
          next arity =>
            split at h
            next => exact absurd h (by simp)
            next insts heq5 =>
              split at h
              next => exact absurd h (by simp)
              next idx heq6 =>
                simp only [Option.some.injEq, Prod.mk.injEq] at h
                exact Or.inl h.1.symm
          next arity =>
            split at h
            next => exact absurd h (by simp)
            next insts heq5 =>
              split at h
              next => exact absurd h (by simp)
              next idx heq6 =>
                simp only [Option.some.injEq, Prod.mk.injEq] at h
                exact Or.inl h.1.symm

/-- C9: `br_if` pops exactly one stack value and branches exactly when that
value differs from `Value::I32(0)`; a popped value of any other type (such
as `I64(0)`) causes the branch, and `br_if` never raises an
`UnexpectedStackValueType` trap (its pop is the untyped `pop_value`, and
`branch` only ever produces `Ok(Next)` or stack errors). -/
theorem c9_br_if_semantics (intc : Interceptor) (d mi : Nat) (pc : ProgramCounter)
    (store : Store) (v : Value) (rest : Stack) :
    (v = Value.I32 0 → isOverTopLevel rest = false →
      executeInst intc (.brIf d) mi ⟨pc, .value v :: rest, store⟩ =
        some (.ok .next, ⟨pcInc pc, rest, store⟩)) ∧
    (v ≠ Value.I32 0 →
      executeInst intc (.brIf d) mi ⟨pc, .value v :: rest, store⟩ =
        finalizeRes (branchStep d ⟨pcInc pc, rest, store⟩)) ∧
    (∀ (s : EState) (r : Except Trap Signal) (s' : EState),
      executeInst intc (.brIf d) mi s = some (r, s') →
      ∀ e a, r ≠ .error (.unexpectedStackValueType e a)) := by
  refine ⟨fun hv hrest => ?_, fun hv => ?_, fun s r s' h e a => ?_⟩
  · subst hv
    simp [executeInst, executeInstAux, popValue, pcInc, hrest]
  · simp only [executeInst, executeInstAux, popValue, liftH, pcInc]
    rw [if_pos hv]
    cases hb : branchStep d ⟨⟨pc.moduleIndex, pc.execAddr, pc.instIndex + 1⟩, rest, store⟩ with
    | none => simp [finalizeRes]
    | some pr =>
      rcases pr with ⟨rb, sb⟩
      simp [finalizeRes]
  · intro hre
    subst hre
    rcases hstack : s.stack with _ | ⟨sv, rest'⟩
    · rcases s with ⟨pc', stk, store'⟩
      simp only at hstack
      subst hstack
      simp [executeInst, executeInstAux, popValue] at h
    · rcases s with ⟨pc', stk, store'⟩
      simp only at hstack
      subst hstack
      cases sv with
      | label l => simp [executeInst, executeInstAux, popValue] at h
      | activation f => simp [executeInst, executeInstAux, popValue] at h
      | value v' =>
        by_cases hv : v' = Value.I32 0
        · subst hv
          by_cases hov : isOverTopLevel rest' <;>
            simp [executeInst, executeInstAux, popValue, liftH, hov] at h
        · simp only [executeInst, executeInstAux, popValue, liftH] at h
          rw [if_pos hv] at h
          cases hb : branchStep d
              ⟨⟨pc'.moduleIndex, pc'.execAddr, pc'.instIndex + 1⟩, rest', store'⟩ with
          | none => rw [hb] at h; exact absurd h (by simp)
          | some pr =>
            rw [hb] at h
            rcases pr with ⟨rb, sb⟩
            rcases branchStep_shape _ _ _ _ hb with hsh | ⟨e2, hsh⟩ <;>
              subst hsh <;>
              by_cases hov : isOverTopLevel sb.stack <;>
              simp [hov] at h

/-- Witness for C9: popping `I32(0)` falls through; popping `I64(0)` — a
non-i32 value — takes the branch (the step is exactly the finalized
`branch 0`), with no `UnexpectedStackValueType`. -/
theorem c9_br_if_semantics_witness :
    executeInst nopInterceptor (.brIf 0) 0
        ⟨⟨0, 0, 0⟩, [.value (.I32 0), .label (.ret 0), .activation ⟨0, 0, [], none⟩],
          ⟨[], [], [], []⟩⟩ =
      some (.ok .next,
        ⟨⟨0, 0, 1⟩, [.label (.ret 0), .activation ⟨0, 0, [], none⟩], ⟨[], [], [], []⟩⟩) ∧
    executeInst nopInterceptor (.brIf 0) 0
        ⟨⟨0, 0, 0⟩, [.value (.I64 0), .label (.ret 0), .activation ⟨0, 0, [], none⟩],
          ⟨[], [], [], []⟩⟩ =
      finalizeRes (branchStep 0
        ⟨⟨0, 0, 1⟩, [.label (.ret 0), .activation ⟨0, 0, [], none⟩], ⟨[], [], [], []⟩⟩) :=
  ⟨(c9_br_if_semantics nopInterceptor 0 0 ⟨0, 0, 0⟩ ⟨[], [], [], []⟩ (.I32 0)
      [.label (.ret 0), .activation ⟨0, 0, [], none⟩]).1 rfl (by decide),
   (c9_br_if_semantics nopInterceptor 0 0 ⟨0, 0, 0⟩ ⟨[], [], [], []⟩ (.I64 0)
      [.label (.ret 0), .activation ⟨0, 0, [], none⟩]).2.1 (by decide)⟩

/-- A stack with no leading value makes every pop of the argument loop fail:
the loop keeps running, collects nothing, flags the mismatch and leaves the
stack unchanged. -/
theorem popArgsLoop_none_leading (s : Stack) (hs : leadingVals s = []) :
    ∀ k : Nat, popArgsLoop (k + 1) s = ([], true, s) := by
  have hpop : popValue s = (.error .emptyOrTypeMismatch, s) := by
    cases s with
    | nil => rfl
    | cons e rest =>
      cases e with
      | value v => simp [leadingVals] at hs
      | label l => rfl
      | activation f => rfl
  have key : ∀ k : Nat, (popArgsLoop k s).1 = [] ∧ (popArgsLoop k s).2.2 = s := by
    intro k
    induction k with
    | zero => simp [popArgsLoop]
    | succ k ih => simp [popArgsLoop, hpop, ih.1, ih.2]
  intro k
  simp [popArgsLoop, hpop, (key k).1, (key k).2]

/-- With at least `n` leading values the argument loop pops exactly the
first `n` of them, in order, without flagging a mismatch. -/
theorem popArgsLoop_enough : ∀ (n : Nat) (s : Stack), n ≤ (leadingVals s).length →
    popArgsLoop n s = ((leadingVals s).take n, false, s.drop n) := by
  intro n
  induction n with
  | zero => intro s _; simp [popArgsLoop]
  | succ n ih =>
    intro s h
    cases s with
    | nil => simp [leadingVals] at h
    | cons e rest =>
      cases e with
      | value v =>
        simp only [leadingVals, List.length_cons, Nat.succ_le_succ_iff] at h
        simp [popArgsLoop, popValue, leadingVals, ih rest h]
      | label l => simp [leadingVals] at h
      | activation f => simp [leadingVals] at h

/-- With fewer than `n` leading values the argument loop pops every leading
value and flags the mismatch. -/
theorem popArgsLoop_short : ∀ (n : Nat) (s : Stack), (leadingVals s).length < n →
    popArgsLoop n s = (leadingVals s, true, dropLeadingVals s) := by
  intro n
  induction n with
  | zero => intro s h; omega
  | succ n ih =>
    intro s h
    cases s with
    | nil =>
      have := popArgsLoop_none_leading [] (by rfl) n
      simpa [leadingVals, dropLeadingVals] using this
    | cons e rest =>
      cases e with
      | value v =>
        simp only [leadingVals, List.length_cons, Nat.succ_lt_succ_iff] at h
        simp [popArgsLoop, popValue, leadingVals, dropLeadingVals, ih rest h]
      | label l =>
        have := popArgsLoop_none_leading (.label l :: rest) (by rfl) n
        simpa [leadingVals, dropLeadingVals] using this
      | activation f =>
        have := popArgsLoop_none_leading (.activation f :: rest) (by rfl) n
        simpa [leadingVals, dropLeadingVals] using this

/-- C10: a direct call pops exactly `|params|` values as arguments without
comparing their types to the declared parameter types.
`DirectCallTypeMismatch` is raised exactly when the stack yields fewer than
`|params|` poppable values, and its `actual` field then lists the types of
the values that were successfully popped (external host bodies, which could
return an arbitrary trap of their own, are assumed not to fabricate this
one). -/
theorem c10_direct_call_args (addr : FuncAddr) (pc : ProgramCounter) (stack : Stack)
    (store : Store) (func : FunctionInstance) (exec : Nat)
    (hres : store.func addr = some (func, exec)) :
    (∀ intc : Interceptor, (leadingVals stack).length < func.ty.params.length →
      invokeStep intc addr ⟨pc, stack, store⟩ =
        some (.error (.directCallTypeMismatch func.name func.ty.params
            ((leadingVals stack).map Value.valueType)),
          ⟨pc, dropLeadingVals stack, store⟩)) ∧
    (∀ df, func = .defined df → func.ty.params.length ≤ (leadingVals stack).length →
      invokeStep nopInterceptor addr ⟨pc, stack, store⟩ =
        some (.ok .next,
          ⟨⟨df.moduleIndex, exec, 0⟩,
            pushLabel (.ret func.ty.returns.length)
              (setFrame ⟨df.moduleIndex, exec,
                ((leadingVals stack).take func.ty.params.length).reverse ++
                  df.localTypes.map zeroValue, some pc⟩
                (stack.drop func.ty.params.length)), store⟩)) ∧
    (func.ty.params.length ≤ (leadingVals stack).length →
      (∀ hf, func = .host hf → ∀ args mi2 nm ex ac,
        hf.call args mi2 ≠ .error (.directCallTypeMismatch nm ex ac)) →
      ∀ nm ex ac s', invokeStep nopInterceptor addr ⟨pc, stack, store⟩ ≠
        some (.error (.directCallTypeMismatch nm ex ac), s')) := by
  refine ⟨fun intc h => ?_, fun df hdf h => ?_, fun h hhost nm ex ac s' hcon => ?_⟩
  · simp only [invokeStep, hres]
    rw [popArgsLoop_short _ _ h]
    simp
  · subst hdf
    simp only [invokeStep, hres]
    rw [popArgsLoop_enough _ _ h]
    simp [nopInterceptor]
  · cases func with
    | defined df =>
      simp only [invokeStep, hres] at hcon
      rw [popArgsLoop_enough _ _ h] at hcon
      simp [nopInterceptor] at hcon
    | host hf =>
      simp only [invokeStep, hres] at hcon
      rw [popArgsLoop_enough _ _ h] at hcon
      rw [if_neg (by simp)] at hcon
      rcases hc :
          hf.call ((leadingVals stack).take (FunctionInstance.host hf).ty.params.length).reverse
            addr.moduleIndex with t | results
      · rw [hc] at hcon
        simp only [Option.some.injEq, Prod.mk.injEq, Except.error.injEq] at hcon
        exact hhost hf rfl _ _ nm ex ac (by rw [hc]; exact congrArg Except.error hcon.1)
      · rw [hc] at hcon
        by_cases hlen : results.length = (FunctionInstance.host hf).ty.returns.length <;>
          simp [hlen] at hcon

/-- Witness for C10 against a concrete two-parameter function: a stack with
a single `F64` value under the labels raises `DirectCallTypeMismatch` whose
`actual` is `[f64]`; a stack with two values of the wrong types (`I64`,
`F64`) is accepted without any type comparison and they become the locals. -/
theorem c10_direct_call_args_witness :
    invokeStep nopInterceptor ⟨0, 0⟩
        ⟨⟨0, 0, 9⟩, [.value (.F64 9), .label (.ret 0), .activation ⟨0, 0, [], none⟩],
          ⟨[.defined ⟨0, ⟨[.i32, .i32], [.i32]⟩, [], [.endOp], "add"⟩], [[some 0]], [], []⟩⟩ =
      some (.error (.directCallTypeMismatch "add" [.i32, .i32] [.f64]),
        ⟨⟨0, 0, 9⟩, [.label (.ret 0), .activation ⟨0, 0, [], none⟩],
          ⟨[.defined ⟨0, ⟨[.i32, .i32], [.i32]⟩, [], [.endOp], "add"⟩], [[some 0]], [], []⟩⟩) ∧
    invokeStep nopInterceptor ⟨0, 0⟩
        ⟨⟨0, 0, 9⟩, [.value (.F64 9), .value (.I64 3), .activation ⟨0, 0, [], none⟩],
          ⟨[.defined ⟨0, ⟨[.i32, .i32], [.i32]⟩, [], [.endOp], "add"⟩], [[some 0]], [], []⟩⟩ =
      some (.ok .next,
        ⟨⟨0, 0, 0⟩,
          [.label (.ret 1),
           .activation ⟨0, 0, [.I64 3, .F64 9], some ⟨0, 0, 9⟩⟩,
           .activation ⟨0, 0, [], none⟩],
          ⟨[.defined ⟨0, ⟨[.i32, .i32], [.i32]⟩, [], [.endOp], "add"⟩], [[some 0]], [], []⟩⟩) := by
  constructor
  · have h := (c10_direct_call_args ⟨0, 0⟩ ⟨0, 0, 9⟩
      [.value (.F64 9), .label (.ret 0), .activation ⟨0, 0, [], none⟩]
      ⟨[.defined ⟨0, ⟨[.i32, .i32], [.i32]⟩, [], [.endOp], "add"⟩], [[some 0]], [], []⟩
      (.defined ⟨0, ⟨[.i32, .i32], [.i32]⟩, [], [.endOp], "add"⟩) 0 rfl).1
      nopInterceptor (by decide)
    exact h
  · have h := (c10_direct_call_args ⟨0, 0⟩ ⟨0, 0, 9⟩
      [.value (.F64 9), .value (.I64 3), .activation ⟨0, 0, [], none⟩]
      ⟨[.defined ⟨0, ⟨[.i32, .i32], [.i32]⟩, [], [.endOp], "add"⟩], [[some 0]], [], []⟩
      (.defined ⟨0, ⟨[.i32, .i32], [.i32]⟩, [], [.endOp], "add"⟩) 0 rfl).2.1
      ⟨0, ⟨[.i32, .i32], [.i32]⟩, [], [.endOp], "add"⟩ rfl (by decide)
    exact h


/-- The store with module `mi`'s memory replaced (the effect of a store
instruction's interior-mutability write). -/
def setMemAt (store : Store) (mi : Nat) (m : MemoryInstance) : Store :=
  { store with memories := store.memories.set mi m }

/-- The memory produced by a successful bounds-checked write. -/
def writeMem (m : MemoryInstance) (addr : Nat) (buf : List Nat) : MemoryInstance :=
  { m with data := m.data.take addr ++ buf ++ m.data.drop (addr + buf.length) }

/-- A write within bounds succeeds and yields the spliced byte vector. -/
theorem storeBytes_ok (m : MemoryInstance) (addr : Nat) (buf : List Nat)
    (h : addr + buf.length ≤ m.data.length) :
    m.storeBytes addr buf = .ok (writeMem m addr buf) := by
  simp [MemoryInstance.storeBytes, writeMem, Nat.not_lt.mpr h, Nat.lt_irrefl]

/-- An in-bounds write leaves the memory length unchanged. -/
theorem writeMem_data_length (m : MemoryInstance) (addr : Nat) (buf : List Nat)
    (h : addr + buf.length ≤ m.data.length) :
    (writeMem m addr buf).data.length = m.data.length := by
  simp [writeMem, List.length_take, List.length_drop]
  omega

/-- Pointwise description of an in-bounds write: bytes inside the written
region come from the buffer, all others are unchanged. -/
theorem writeMem_getElem? (m : MemoryInstance) (addr : Nat) (buf : List Nat) (j : Nat)
    (h : addr + buf.length ≤ m.data.length) :
    (writeMem m addr buf).data[j]? =
      if j < addr then m.data[j]?
      else if j < addr + buf.length then buf[j - addr]?
      else m.data[j]? := by
  have htl : (m.data.take addr).length = addr := by simp [List.length_take]; omega
  split_ifs with h1 h2
  · rw [writeMem]
    rw [List.append_assoc]
    rw [List.getElem?_append_left (by omega : j < (m.data.take addr).length)]
    simp [List.getElem?_take, h1]
  · rw [writeMem]
    rw [List.append_assoc]
    rw [List.getElem?_append_right (by omega : (m.data.take addr).length ≤ j)]
    rw [List.getElem?_append_left (by rw [htl]; omega : j - (m.data.take addr).length < buf.length)]
    rw [htl]
  · rw [writeMem]
    rw [List.append_assoc]
    rw [List.getElem?_append_right (by omega : (m.data.take addr).length ≤ j)]
    rw [List.getElem?_append_right (by rw [htl]; omega : buf.length ≤ j - (m.data.take addr).length)]
    rw [List.getElem?_drop]
    congr 1
    omega

/-- Reading the written region back yields the buffer. -/
theorem writeMem_read_back (m : MemoryInstance) (addr : Nat) (buf : List Nat)
    (h : addr + buf.length ≤ m.data.length) :
    ((writeMem m addr buf).data.drop addr).take buf.length = buf := by
  have htl : (m.data.take addr).length = addr := by simp [List.length_take]; omega
  have hd : (writeMem m addr buf).data =
      m.data.take addr ++ (buf ++ m.data.drop (addr + buf.length)) := by
    simp [writeMem, List.append_assoc]
  rw [hd]
  have hdrop : (m.data.take addr ++ (buf ++ m.data.drop (addr + buf.length))).drop addr =
      buf ++ m.data.drop (addr + buf.length) := by
    have h2 := List.drop_left (m.data.take addr) (buf ++ m.data.drop (addr + buf.length))
    rwa [htl] at h2
  rw [hdrop]
  exact List.take_left buf _

/-- A bounds-checked load of the freshly written region succeeds with the
buffer. -/
theorem loadBytes_writeMem (m : MemoryInstance) (addr : Nat) (buf : List Nat)
    (h : addr + buf.length ≤ m.data.length) :
    (writeMem m addr buf).loadBytes addr buf.length = .ok buf := by
  rw [MemoryInstance.loadBytes]
  rw [if_neg (by rw [writeMem_data_length m addr buf h]; omega)]
  rw [writeMem_read_back m addr buf h]



/-- A little-endian encoding buffer has exactly the requested size. -/
theorem natToLE_length : ∀ (k n : Nat), (natToLE k n).length = k := by
  intro k
  induction k with
  | zero => intro n; rfl
  | succ k ih => intro n; simp [natToLE, ih]

/-- Little-endian decode of a `k`-byte encode recovers the low `k` bytes. -/
theorem leToNat_natToLE : ∀ (k n : Nat), leToNat (natToLE k n) = n % 256 ^ k := by
  intro k
  induction k with
  | zero => intro n; simp [natToLE, leToNat]; omega
  | succ k ih =>
    intro n
    rw [natToLE, leToNat, ih]
    rw [pow_succ']
    rw [Nat.mod_mul]
    omega

/-- The unsigned 32-bit view is below `2^32`. -/
theorem toU32_lt (n : Int) : toU32 n < 2 ^ 32 := by
  have e : (2 ^ 32 : Int) = 4294967296 := by norm_num
  unfold toU32
  rw [e]
  omega

/-- The unsigned 64-bit view is below `2^64`. -/
theorem toU64_lt (n : Int) : toU64 n < 2 ^ 64 := by
  have e : (2 ^ 64 : Int) = 18446744073709551616 := by norm_num
  unfold toU64
  rw [e]
  omega

/-- The signed reading of the unsigned view recovers an in-range i32. -/
theorem toSigned_toU32 {n : Int} (h1 : -(2 ^ 31) ≤ n) (h2 : n < 2 ^ 31) :
    toSigned 32 (toU32 n) = n := by
  have e : (2 ^ 32 : Int) = 4294967296 := by norm_num
  have e31 : (2 ^ 31 : Int) = 2147483648 := by norm_num
  rw [e31] at h1 h2
  unfold toSigned toU32
  rw [e]
  simp only []
  split_ifs with hlt
  · omega
  · push_cast
    omega

/-- The signed reading of the unsigned view recovers an in-range i64. -/
theorem toSigned_toU64 {n : Int} (h1 : -(2 ^ 63) ≤ n) (h2 : n < 2 ^ 63) :
    toSigned 64 (toU64 n) = n := by
  have e : (2 ^ 64 : Int) = 18446744073709551616 := by norm_num
  have e63 : (2 ^ 63 : Int) = 9223372036854775808 := by norm_num
  rw [e63] at h1 h2
  unfold toSigned toU64
  rw [e]
  simp only []
  split_ifs with hlt
  · omega
  · push_cast
    omega

/-- Bit-for-bit round trip: decoding the little-endian encoding of a
well-formed value recovers the value. -/
theorem decode_leBytes (v : Value) (hwf : v.wf) :
    decodeValue v.valueType (leBytes v.valueType v) = v := by
  cases v with
  | I32 n =>
    rcases hwf with ⟨h1, h2⟩
    simp only [Value.valueType, leBytes, decodeValue, sizeOfVt, Value.bits]
    rw [leToNat_natToLE]
    have : toU32 n % 256 ^ 4 = toU32 n := Nat.mod_eq_of_lt (by have := toU32_lt n; norm_num at this ⊢; omega)
    rw [this, toSigned_toU32 h1 h2]
  | I64 n =>
    rcases hwf with ⟨h1, h2⟩
    simp only [Value.valueType, leBytes, decodeValue, sizeOfVt, Value.bits]
    rw [leToNat_natToLE]
    have : toU64 n % 256 ^ 8 = toU64 n := Nat.mod_eq_of_lt (by have := toU64_lt n; norm_num at this ⊢; omega)
    rw [this, toSigned_toU64 h1 h2]
  | F32 b =>
    have hb : b < 2 ^ 32 := hwf
    simp only [Value.valueType, leBytes, decodeValue, sizeOfVt, Value.bits]
    rw [leToNat_natToLE]
    congr 1
    exact Nat.mod_eq_of_lt (by norm_num at hb ⊢; omega)
  | F64 b =>
    have hb : b < 2 ^ 64 := hwf
    simp only [Value.valueType, leBytes, decodeValue, sizeOfVt, Value.bits]
    rw [leToNat_natToLE]
    congr 1
    exact Nat.mod_eq_of_lt (by norm_num at hb ⊢; omega)

/-- With base 0 the effective address is exactly the immediate offset. -/
theorem effAddr_zero_base {a : Nat} (h : a < 2 ^ 64) : effAddr 0 a = a := by
  unfold effAddr usizeOfI32
  simp
  omega


/-- Popping a typed value from a stack whose top entry is a value of the
expected type succeeds. -/
theorem popTyped_value_ok (vt : ValType) (v : Value) (rest : Stack) (hv : v.valueType = vt) :
    popTyped vt (.value v :: rest) = (.ok v, rest) := by
  simp [popTyped, popValue, hv]

/-- Full behaviour of `Executor::load::<T>` on a well-shaped stack: trap
`Memory(OutOfBounds)` exactly when the effective address plus the access
size exceeds the memory length, otherwise push the decoded bytes at the
effective address. -/
theorem loadOp_spec (vt : ValType) (off : Nat) (pc : ProgramCounter) (store : Store)
    (b : Int) (rest : Stack) (f : CallFrame) (mem : MemoryInstance)
    (hf : currentFrame rest = .ok f)
    (hm : store.memories.get? f.moduleIndex = some mem) :
    loadOp vt off ⟨pc, .value (.I32 b) :: rest, store⟩ =
      if mem.data.length < effAddr b off + sizeOfVt vt then
        some (.error (.memory .outOfBounds), ⟨pc, rest, store⟩)
      else
        some (.ok .next,
          ⟨pc, .value (decodeValue vt ((mem.data.drop (effAddr b off)).take (sizeOfVt vt)))
            :: rest, store⟩) := by
  have hpt : popTyped .i32 ((.value (.I32 b) : StackValue) :: rest) = (.ok (.I32 b), rest) :=
    popTyped_value_ok _ _ _ rfl
  simp only [loadOp, hpt, memoryOf, hf, hm, MemoryInstance.loadBytes, pushValue, Value.asI32]
  split_ifs with h1 <;> rfl

/-- Full behaviour of `Executor::load_extend::<T, U>` on a well-shaped
stack. -/
theorem loadExtendOp_spec (srcSize : Nat) (signed dst64 : Bool) (off : Nat)
    (pc : ProgramCounter) (store : Store) (b : Int) (rest : Stack) (f : CallFrame)
    (mem : MemoryInstance) (hf : currentFrame rest = .ok f)
    (hm : store.memories.get? f.moduleIndex = some mem) :
    loadExtendOp srcSize signed dst64 off ⟨pc, .value (.I32 b) :: rest, store⟩ =
      if mem.data.length < effAddr b off + srcSize then
        some (.error (.memory .outOfBounds), ⟨pc, rest, store⟩)
      else
        some (.ok .next,
          ⟨pc, .value (
            let n := leToNat ((mem.data.drop (effAddr b off)).take srcSize)
            let ext : Int := if signed then toSigned (8 * srcSize) n else (n : Int)
            if dst64 then .I64 ext else .I32 ext) :: rest, store⟩) := by
  have hpt : popTyped .i32 ((.value (.I32 b) : StackValue) :: rest) = (.ok (.I32 b), rest) :=
    popTyped_value_ok _ _ _ rfl
  simp only [loadExtendOp, hpt, memoryOf, hf, hm, MemoryInstance.loadBytes, pushValue,
    Value.asI32]
  split_ifs with h1 <;> rfl

/-- Full behaviour of `Executor::store::<T>` on a well-shaped stack: trap
`Memory(OutOfBounds)` exactly when the effective address plus `sizeof(T)`
exceeds the memory length, otherwise splice the little-endian encoding in at
the effective address. -/
theorem storeOp_spec (vt : ValType) (off : Nat) (pc : ProgramCounter) (store : Store)
    (v : Value) (b : Int) (rest : Stack) (f : CallFrame) (mem : MemoryInstance)
    (hv : v.valueType = vt) (hf : currentFrame rest = .ok f)
    (hm : store.memories.get? f.moduleIndex = some mem) :
    storeOp vt off ⟨pc, .value v :: .value (.I32 b) :: rest, store⟩ =
      if mem.data.length < effAddr b off + sizeOfVt vt then
        some (.error (.memory .outOfBounds), ⟨pc, rest, store⟩)
      else
        some (.ok .next,
          ⟨pc, rest,
            setMemAt store f.moduleIndex (writeMem mem (effAddr b off) (leBytes vt v))⟩) := by
  have hlen : (leBytes vt v).length = sizeOfVt vt := natToLE_length _ _
  have hpt1 : popTyped vt ((.value v : StackValue) :: .value (.I32 b) :: rest) =
      (.ok v, .value (.I32 b) :: rest) := popTyped_value_ok _ _ _ hv
  have hpt2 : popTyped .i32 ((.value (.I32 b) : StackValue) :: rest) = (.ok (.I32 b), rest) :=
    popTyped_value_ok _ _ _ rfl
  simp only [storeOp, hpt1, hpt2, memoryOf, hf, hm, Value.asI32]
  by_cases h1 : mem.data.length < effAddr b off + sizeOfVt vt
  · rw [if_pos h1]
    have hsb : mem.storeBytes (effAddr b off) (leBytes vt v) = .error .outOfBounds := by
      rw [MemoryInstance.storeBytes, if_pos (by rw [hlen]; omega)]
    simp [hsb]
  · rw [if_neg h1]
    have hsb : mem.storeBytes (effAddr b off) (leBytes vt v) =
        .ok (writeMem mem (effAddr b off) (leBytes vt v)) :=
      storeBytes_ok _ _ _ (by rw [hlen]; omega)
    simp [hsb, setMemAt]

/-- Full behaviour of `Executor::store_with_width::<T>` on a well-shaped
stack: only the low `width` bytes of the `sizeof(T)` encoding are written,
and the bounds check uses `width`. -/
theorem storeWithWidthOp_spec (vt : ValType) (off width : Nat) (pc : ProgramCounter)
    (store : Store) (v : Value) (b : Int) (rest : Stack) (f : CallFrame)
    (mem : MemoryInstance)
    (hv : v.valueType = vt) (hf : currentFrame rest = .ok f)
    (hm : store.memories.get? f.moduleIndex = some mem) :
    storeWithWidthOp vt off width ⟨pc, .value v :: .value (.I32 b) :: rest, store⟩ =
      if mem.data.length < effAddr b off + ((leBytes vt v).take width).length then
        some (.error (.memory .outOfBounds), ⟨pc, rest, store⟩)
      else
        some (.ok .next,
          ⟨pc, rest,
            setMemAt store f.moduleIndex
              (writeMem mem (effAddr b off) ((leBytes vt v).take width))⟩) := by
  have hpt1 : popTyped vt ((.value v : StackValue) :: .value (.I32 b) :: rest) =
      (.ok v, .value (.I32 b) :: rest) := popTyped_value_ok _ _ _ hv
  have hpt2 : popTyped .i32 ((.value (.I32 b) : StackValue) :: rest) = (.ok (.I32 b), rest) :=
    popTyped_value_ok _ _ _ rfl
  simp only [storeWithWidthOp, hpt1, hpt2, memoryOf, hf, hm, Value.asI32]
  by_cases h1 : mem.data.length < effAddr b off + ((leBytes vt v).take width).length
  · rw [if_pos h1]
    have hsb : mem.storeBytes (effAddr b off) ((leBytes vt v).take width) =
        .error .outOfBounds := by
      rw [MemoryInstance.storeBytes, if_pos (by omega)]
    simp [hsb]
  · rw [if_neg h1]
    have hsb : mem.storeBytes (effAddr b off) ((leBytes vt v).take width) =
        .ok (writeMem mem (effAddr b off) ((leBytes vt v).take width)) :=
      storeBytes_ok _ _ _ (by omega)
    simp [hsb, setMemAt]

/-- C2: every narrowing store encodes the popped value little-endian into a
`sizeof(T)`-byte buffer and writes only its low `width` bytes, where the
width is in bytes — 1, 2, 1, 2, 4 for `i32.store8`, `i32.store16`,
`i64.store8`, `i64.store16`, `i64.store32` as recorded in `narrowStoreOps`;
every byte outside `[effective, effective + width)` is unchanged, so
`i32.store8` modifies exactly one byte. -/
theorem c2_narrowing_store_width :
    ∀ p ∈ narrowStoreOps,
    ∀ (intc : Interceptor) (mi : Nat) (pc : ProgramCounter) (store : Store)
      (f : CallFrame) (rest : Stack) (v : Value) (b : Int) (off : Nat)
      (mem : MemoryInstance),
      v.valueType = p.2.1 →
      currentFrame rest = .ok f →
      store.memories.get? f.moduleIndex = some mem →
      effAddr b off + p.2.2 ≤ mem.data.length →
      (executeInst intc (p.1 ⟨off⟩) mi ⟨pc, .value v :: .value (.I32 b) :: rest, store⟩ =
        some (.ok .next,
          ⟨pcInc pc, rest,
            setMemAt store f.moduleIndex
              (writeMem mem (effAddr b off) ((leBytes p.2.1 v).take p.2.2))⟩)) ∧
      ((leBytes p.2.1 v).take p.2.2).length = p.2.2 ∧
      (leBytes p.2.1 v).length = sizeOfVt p.2.1 ∧
      (∀ j, j < effAddr b off ∨ effAddr b off + p.2.2 ≤ j →
        (writeMem mem (effAddr b off) ((leBytes p.2.1 v).take p.2.2)).data[j]? =
          mem.data[j]?) := by
  intro p hp
  simp only [narrowStoreOps, List.mem_cons, List.not_mem_nil, or_false] at hp
  rcases hp with rfl | rfl | rfl | rfl | rfl <;>
  · intro intc mi pc store f rest v b off mem hv hf hm hbound
    dsimp only at hv hbound ⊢
    have hrest := currentFrame_ok_not_over hf
    refine ⟨?_, by simp [List.length_take, natToLE_length, leBytes, sizeOfVt],
      natToLE_length _ _, fun j hj => ?_⟩
    · simp only [executeInst, executeInstAux, liftH, pcInc]
      rw [storeWithWidthOp_spec _ _ _ _ _ _ _ _ _ _ hv hf hm]
      rw [if_neg (by simp [List.length_take, natToLE_length, leBytes, sizeOfVt]; omega)]
      simp [hrest]
    · rw [writeMem_getElem? mem (effAddr b off) _ j
        (by simp [List.length_take, natToLE_length, leBytes, sizeOfVt]; omega)]
      rcases hj with hj | hj
      · rw [if_pos hj]
      · rw [if_neg (by omega),
          if_neg (by simp [List.length_take, natToLE_length, leBytes, sizeOfVt]; omega)]

/-- Witness for C2: `i32.store8` of the value 511 at address 2 in the
six-byte memory `[7,7,7,7,7,7]` writes exactly one byte — the low byte 255 —
yielding `[7,7,255,7,7,7]`. -/
theorem c2_narrowing_store_width_witness :
    executeInst nopInterceptor (.i32Store8 ⟨0⟩) 0
        ⟨⟨0, 0, 0⟩, [.value (.I32 511), .value (.I32 2), .activation ⟨0, 0, [], none⟩],
          ⟨[], [], [⟨[7, 7, 7, 7, 7, 7], none⟩], []⟩⟩ =
      some (.ok .next,
        ⟨⟨0, 0, 1⟩, [.activation ⟨0, 0, [], none⟩],
          ⟨[], [], [⟨[7, 7, 255, 7, 7, 7], none⟩], []⟩⟩) := by
  have h := (c2_narrowing_store_width (.i32Store8, .i32, 1) (List.mem_cons_self _ _)
    nopInterceptor 0 ⟨0, 0, 0⟩ ⟨[], [], [⟨[7, 7, 7, 7, 7, 7], none⟩], []⟩
    ⟨0, 0, [], none⟩ [.activation ⟨0, 0, [], none⟩] (.I32 511) 2 0
    ⟨[7, 7, 7, 7, 7, 7], none⟩ rfl rfl rfl (by decide)).1
  rw [h]
  rfl

/-- C6: for every value type T, every well-formed value v of type T and
every in-bounds address a (reached with base 0 and immediate offset a),
executing the store of v at a followed by the load of T at a pushes exactly
v — bit-for-bit, since float payloads are raw bit patterns. -/

theorem c6_store_load_roundtrip (intc : Interceptor) (mi : Nat) (pc pc2 : ProgramCounter)
    (store : Store) (f : CallFrame) (rest : Stack) (v : Value) (a : Nat)
    (mem : MemoryInstance)
    (hf : currentFrame rest = .ok f)
    (hm : store.memories.get? f.moduleIndex = some mem)
    (hwf : v.wf)
    (hbound : a + sizeOfVt v.valueType ≤ mem.data.length)
    (ha : a < 2 ^ 32) :
    executeInst intc (storeInstFor v.valueType ⟨a⟩) mi
        ⟨pc, .value v :: .value (.I32 0) :: rest, store⟩ =
      some (.ok .next,
        ⟨pcInc pc, rest,
          setMemAt store f.moduleIndex (writeMem mem a (leBytes v.valueType v))⟩) ∧
    executeInst intc (loadInstFor v.valueType ⟨a⟩) mi
        ⟨pc2, .value (.I32 0) :: rest,
          setMemAt store f.moduleIndex (writeMem mem a (leBytes v.valueType v))⟩ =
      some (.ok .next,
        ⟨pcInc pc2, .value v :: rest,
          setMemAt store f.moduleIndex (writeMem mem a (leBytes v.valueType v))⟩) := by
  have hrest := currentFrame_ok_not_over hf
  have heff : effAddr 0 a = a := effAddr_zero_base (by norm_num at ha ⊢; omega)
  have hlenb : (leBytes v.valueType v).length = sizeOfVt v.valueType := natToLE_length _ _
  have hmlt : f.moduleIndex < store.memories.length := by
    rcases List.get?_eq_some.mp hm with ⟨h, _⟩
    exact h
  have hm' : (setMemAt store f.moduleIndex
        (writeMem mem a (leBytes v.valueType v))).memories.get? f.moduleIndex =
      some (writeMem mem a (leBytes v.valueType v)) := by
    simp [setMemAt, List.get?_eq_getElem?, List.getElem?_set_self hmlt]
  have hload : (writeMem mem a (leBytes v.valueType v)).loadBytes a (sizeOfVt v.valueType) =
      .ok (leBytes v.valueType v) := by
    rw [← hlenb]
    exact loadBytes_writeMem mem a _ (by rw [hlenb]; omega)
  have hwlen : (writeMem mem a (leBytes v.valueType v)).data.length = mem.data.length :=
    writeMem_data_length _ _ _ (by rw [hlenb]; omega)
  have hdec := decode_leBytes v hwf
  have hbytes : ((writeMem mem a (leBytes v.valueType v)).data.drop a).take
      (sizeOfVt v.valueType) = leBytes v.valueType v := by
    rw [← hlenb]
    exact writeMem_read_back mem a _ (by rw [hlenb]; omega)
  constructor
  · cases v with
    | I32 n =>
      simp only [Value.valueType, storeInstFor, executeInst, executeInstAux, liftH, pcInc]
      rw [storeOp_spec .i32 a _ store (.I32 n) 0 rest f mem rfl hf hm]
      rw [if_neg (by simp only [heff, Value.valueType, sizeOfVt] at hbound ⊢; omega)]
      simp [hrest, setMemAt, heff, Value.valueType]
    | I64 n =>
      simp only [Value.valueType, storeInstFor, executeInst, executeInstAux, liftH, pcInc]
      rw [storeOp_spec .i64 a _ store (.I64 n) 0 rest f mem rfl hf hm]
      rw [if_neg (by simp only [heff, Value.valueType, sizeOfVt] at hbound ⊢; omega)]
      simp [hrest, setMemAt, heff, Value.valueType]
    | F32 n =>
      simp only [Value.valueType, storeInstFor, executeInst, executeInstAux, liftH, pcInc]
      rw [storeOp_spec .f32 a _ store (.F32 n) 0 rest f mem rfl hf hm]
      rw [if_neg (by simp only [heff, Value.valueType, sizeOfVt] at hbound ⊢; omega)]
      simp [hrest, setMemAt, heff, Value.valueType]
    | F64 n =>
      simp only [Value.valueType, storeInstFor, executeInst, executeInstAux, liftH, pcInc]
      rw [storeOp_spec .f64 a _ store (.F64 n) 0 rest f mem rfl hf hm]
      rw [if_neg (by simp only [heff, Value.valueType, sizeOfVt] at hbound ⊢; omega)]
      simp [hrest, setMemAt, heff, Value.valueType]
  · cases v with
    | I32 n =>
      simp only [Value.valueType] at hm' hwlen hdec hbytes
      simp only [Value.valueType, loadInstFor, executeInst, executeInstAux, liftH, pcInc]
      rw [loadOp_spec .i32 a _ _ 0 rest f _ hf hm']
      rw [if_neg (by
        rw [hwlen]
        simp only [heff, sizeOfVt]
        simp only [Value.valueType, sizeOfVt] at hbound
        omega)]
      rw [heff, hbytes, hdec]
      simp [hrest]
    | I64 n =>
      simp only [Value.valueType] at hm' hwlen hdec hbytes
      simp only [Value.valueType, loadInstFor, executeInst, executeInstAux, liftH, pcInc]
      rw [loadOp_spec .i64 a _ _ 0 rest f _ hf hm']
      rw [if_neg (by
        rw [hwlen]
        simp only [heff, sizeOfVt]
        simp only [Value.valueType, sizeOfVt] at hbound
        omega)]
      rw [heff, hbytes, hdec]
      simp [hrest]
    | F32 n =>
      simp only [Value.valueType] at hm' hwlen hdec hbytes
      simp only [Value.valueType, loadInstFor, executeInst, executeInstAux, liftH, pcInc]
      rw [loadOp_spec .f32 a _ _ 0 rest f _ hf hm']
      rw [if_neg (by
        rw [hwlen]
        simp only [heff, sizeOfVt]
        simp only [Value.valueType, sizeOfVt] at hbound
        omega)]
      rw [heff, hbytes, hdec]
      simp [hrest]
    | F64 n =>
      simp only [Value.valueType] at hm' hwlen hdec hbytes
      simp only [Value.valueType, loadInstFor, executeInst, executeInstAux, liftH, pcInc]
      rw [loadOp_spec .f64 a _ _ 0 rest f _ hf hm']
      rw [if_neg (by
        rw [hwlen]
        simp only [heff, sizeOfVt]
        simp only [Value.valueType, sizeOfVt] at hbound
        omega)]
      rw [heff, hbytes, hdec]
      simp [hrest]



/-- Witness for C6: storing `I32(0xDEADBEEF)` (as the signed value
`-559038737`) at address 0 of an 8-byte memory and loading it back pushes
exactly the same value. -/
theorem c6_store_load_roundtrip_witness :
    executeInst nopInterceptor (.i32Store ⟨0⟩) 0
        ⟨⟨0, 0, 0⟩, [.value (.I32 (-559038737)), .value (.I32 0),
          .activation ⟨0, 0, [], none⟩], ⟨[], [], [⟨List.replicate 8 0, none⟩], []⟩⟩ =
      some (.ok .next, ⟨⟨0, 0, 1⟩, [.activation ⟨0, 0, [], none⟩],
        setMemAt ⟨[], [], [⟨List.replicate 8 0, none⟩], []⟩ 0
          (writeMem ⟨List.replicate 8 0, none⟩ 0 (leBytes .i32 (.I32 (-559038737))))⟩) ∧
    executeInst nopInterceptor (.i32Load ⟨0⟩) 0
        ⟨⟨0, 0, 5⟩, [.value (.I32 0), .activation ⟨0, 0, [], none⟩],
          setMemAt ⟨[], [], [⟨List.replicate 8 0, none⟩], []⟩ 0
            (writeMem ⟨List.replicate 8 0, none⟩ 0 (leBytes .i32 (.I32 (-559038737))))⟩ =
      some (.ok .next,
        ⟨⟨0, 0, 6⟩, [.value (.I32 (-559038737)), .activation ⟨0, 0, [], none⟩],
          setMemAt ⟨[], [], [⟨List.replicate 8 0, none⟩], []⟩ 0
            (writeMem ⟨List.replicate 8 0, none⟩ 0 (leBytes .i32 (.I32 (-559038737))))⟩) :=
  c6_store_load_roundtrip nopInterceptor 0 ⟨0, 0, 0⟩ ⟨0, 0, 5⟩
    ⟨[], [], [⟨List.replicate 8 0, none⟩], []⟩ ⟨0, 0, [], none⟩
    [.activation ⟨0, 0, [], none⟩] (.I32 (-559038737)) 0 ⟨List.replicate 8 0, none⟩
    rfl rfl ⟨by norm_num, by norm_num⟩ (by decide) (by decide)


/-- Claim C1 as stated: for every memory load and store instruction the
effective address is `base + offset` in unsigned 32-bit arithmetic on the
popped i32 base (`effAddrSpecC1`), the instruction traps
`Memory(OutOfBounds)` when that address plus the access size exceeds the
memory's byte length, and completes without that trap otherwise. -/
def claimC1 : Prop :=
  (∀ p ∈ loadAccessOps,
    ∀ (intc : Interceptor) (mi : Nat) (pc : ProgramCounter) (store : Store)
      (f : CallFrame) (rest : Stack) (b : Int) (off : Nat) (mem : MemoryInstance),
      currentFrame rest = .ok f →
      store.memories.get? f.moduleIndex = some mem →
      -(2 ^ 31) ≤ b → b < 2 ^ 31 → off < 2 ^ 32 →
      (mem.data.length < effAddrSpecC1 b off + p.2 →
        ∃ es, executeInst intc (p.1 ⟨off⟩) mi ⟨pc, .value (.I32 b) :: rest, store⟩ =
          some (.error (.memory .outOfBounds), es)) ∧
      (effAddrSpecC1 b off + p.2 ≤ mem.data.length →
        ∃ v es, executeInst intc (p.1 ⟨off⟩) mi ⟨pc, .value (.I32 b) :: rest, store⟩ =
          some (.ok .next, es) ∧ es.stack = .value v :: rest)) ∧
  (∀ q ∈ storeAccessOps,
    ∀ (intc : Interceptor) (mi : Nat) (pc : ProgramCounter) (store : Store)
      (f : CallFrame) (rest : Stack) (v : Value) (b : Int) (off : Nat)
      (mem : MemoryInstance),
      v.valueType = q.2.1 →
      currentFrame rest = .ok f →
      store.memories.get? f.moduleIndex = some mem →
      -(2 ^ 31) ≤ b → b < 2 ^ 31 → off < 2 ^ 32 →
      (mem.data.length < effAddrSpecC1 b off + q.2.2 →
        ∃ es, executeInst intc (q.1 ⟨off⟩) mi
            ⟨pc, .value v :: .value (.I32 b) :: rest, store⟩ =
          some (.error (.memory .outOfBounds), es)) ∧
      (effAddrSpecC1 b off + q.2.2 ≤ mem.data.length →
        ∃ es, executeInst intc (q.1 ⟨off⟩) mi
            ⟨pc, .value v :: .value (.I32 b) :: rest, store⟩ =
          some (.ok .next, es)))

/-- Counterexample to C1: `i32.load` with popped base `2147483647` and
immediate offset `2147483649` on a 4-byte memory.  In unsigned 32-bit
arithmetic the effective address is `(2147483647 + 2147483649) mod 2^32 = 0`
and the access is in bounds, so the claim demands a successful load; the
executor instead computes `base as usize + offset = 2^32` (sign-extending
the base to 64 bits) and traps `Memory(OutOfBounds)`. -/
theorem c1_claim_negation : ¬ claimC1 := by
  intro h
  have h2 := (h.1 (.i32Load, 4) (List.mem_cons_self _ _) nopInterceptor 0 ⟨0, 0, 0⟩
    ⟨[], [], [⟨[0, 0, 0, 0], none⟩], []⟩ ⟨0, 0, [], none⟩
    [.activation ⟨0, 0, [], none⟩] 2147483647 2147483649 ⟨[0, 0, 0, 0], none⟩
    rfl rfl (by norm_num) (by norm_num) (by norm_num)).2
  have h3 := h2 (by decide)
  rcases h3 with ⟨v, es, heq, hstack⟩
  have hcomp : executeInst nopInterceptor (Instruction.i32Load ⟨2147483649⟩) 0
      ⟨⟨0, 0, 0⟩, [.value (.I32 2147483647), .activation ⟨0, 0, [], none⟩],
        ⟨[], [], [⟨[0, 0, 0, 0], none⟩], []⟩⟩ =
      some (.error (.memory .outOfBounds),
        ⟨⟨0, 0, 1⟩, [.activation ⟨0, 0, [], none⟩],
          ⟨[], [], [⟨[0, 0, 0, 0], none⟩], []⟩⟩) := rfl
  rw [hcomp] at heq
  simp at heq

/-- C1 amended: the executor computes the effective address by
sign-extending the popped i32 base to 64 bits (`base as usize`) and adding
the immediate offset, wrapping modulo 2^64 (`effAddr`); every memory load
and store instruction traps with `Memory(OutOfBounds)` exactly when this
64-bit effective address plus the access size exceeds the memory's byte
length, and otherwise completes without a trap.  For a non-negative base
this agrees with unsigned 32-bit arithmetic as long as `base + offset`
stays below 2^32; a wrap that 32-bit arithmetic would perform happens only
at 2^64. -/


theorem c1_effective_address_amended :
    (∀ p ∈ loadAccessOps,
      ∀ (intc : Interceptor) (mi : Nat) (pc : ProgramCounter) (store : Store)
        (f : CallFrame) (rest : Stack) (b : Int) (off : Nat) (mem : MemoryInstance),
        currentFrame rest = .ok f →
        store.memories.get? f.moduleIndex = some mem →
        (mem.data.length < effAddr b off + p.2 →
          executeInst intc (p.1 ⟨off⟩) mi ⟨pc, .value (.I32 b) :: rest, store⟩ =
            some (.error (.memory .outOfBounds), ⟨pcInc pc, rest, store⟩)) ∧
        (effAddr b off + p.2 ≤ mem.data.length →
          ∃ v, executeInst intc (p.1 ⟨off⟩) mi ⟨pc, .value (.I32 b) :: rest, store⟩ =
            some (.ok .next, ⟨pcInc pc, .value v :: rest, store⟩))) ∧
    (∀ q ∈ storeAccessOps,
      ∀ (intc : Interceptor) (mi : Nat) (pc : ProgramCounter) (store : Store)
        (f : CallFrame) (rest : Stack) (v : Value) (b : Int) (off : Nat)
        (mem : MemoryInstance),
        v.valueType = q.2.1 →
        currentFrame rest = .ok f →
        store.memories.get? f.moduleIndex = some mem →
        (mem.data.length < effAddr b off + q.2.2 →
          executeInst intc (q.1 ⟨off⟩) mi
              ⟨pc, .value v :: .value (.I32 b) :: rest, store⟩ =
            some (.error (.memory .outOfBounds), ⟨pcInc pc, rest, store⟩)) ∧
        (effAddr b off + q.2.2 ≤ mem.data.length →
          ∃ mem', executeInst intc (q.1 ⟨off⟩) mi
              ⟨pc, .value v :: .value (.I32 b) :: rest, store⟩ =
            some (.ok .next, ⟨pcInc pc, rest, setMemAt store f.moduleIndex mem'⟩))) := by
  constructor
  · intro p hp
    simp only [loadAccessOps, List.mem_cons, List.not_mem_nil, or_false] at hp
    rcases hp with rfl | rfl | rfl | rfl | rfl | rfl | rfl | rfl | rfl | rfl | rfl | rfl | rfl | rfl
    · intro intc mi pc store f rest b off mem hf hm
      have hrest := currentFrame_ok_not_over hf
      have hspec := loadOp_spec .i32 off
        ⟨pc.moduleIndex, pc.execAddr, pc.instIndex + 1⟩ store b rest f mem hf hm
      dsimp only
      constructor
      · intro hoob
        rw [if_pos (by simp only [sizeOfVt]; omega)] at hspec
        simp only [executeInst, executeInstAux, liftH, pcInc]
        rw [hspec]
        simp [hrest]
      · intro hin
        rw [if_neg (by simp only [sizeOfVt]; omega)] at hspec
        exact ⟨_, by
          simp only [executeInst, executeInstAux, liftH, pcInc]
          rw [hspec]
          simp only [pcInc, isOverTopLevel_value_cons, hrest, Bool.false_eq_true, if_false]
          rfl⟩
    · intro intc mi pc store f rest b off mem hf hm
      have hrest := currentFrame_ok_not_over hf
      have hspec := loadOp_spec .i64 off
        ⟨pc.moduleIndex, pc.execAddr, pc.instIndex + 1⟩ store b rest f mem hf hm
      dsimp only
      constructor
      · intro hoob
        rw [if_pos (by simp only [sizeOfVt]; omega)] at hspec
        simp only [executeInst, executeInstAux, liftH, pcInc]
        rw [hspec]
        simp [hrest]
      · intro hin
        rw [if_neg (by simp only [sizeOfVt]; omega)] at hspec
        exact ⟨_, by
          simp only [executeInst, executeInstAux, liftH, pcInc]
          rw [hspec]
          simp only [pcInc, isOverTopLevel_value_cons, hrest, Bool.false_eq_true, if_false]
          rfl⟩
    · intro intc mi pc store f rest b off mem hf hm
      have hrest := currentFrame_ok_not_over hf
      have hspec := loadOp_spec .f32 off
        ⟨pc.moduleIndex, pc.execAddr, pc.instIndex + 1⟩ store b rest f mem hf hm
      dsimp only
      constructor
      · intro hoob
        rw [if_pos (by simp only [sizeOfVt]; omega)] at hspec
        simp only [executeInst, executeInstAux, liftH, pcInc]
        rw [hspec]
        simp [hrest]
      · intro hin
        rw [if_neg (by simp only [sizeOfVt]; omega)] at hspec
        exact ⟨_, by
          simp only [executeInst, executeInstAux, liftH, pcInc]
          rw [hspec]
          simp only [pcInc, isOverTopLevel_value_cons, hrest, Bool.false_eq_true, if_false]
          rfl⟩
    · intro intc mi pc store f rest b off mem hf hm
      have hrest := currentFrame_ok_not_over hf
      have hspec := loadOp_spec .f64 off
        ⟨pc.moduleIndex, pc.execAddr, pc.instIndex + 1⟩ store b rest f mem hf hm
      dsimp only
      constructor
      · intro hoob
        rw [if_pos (by simp only [sizeOfVt]; omega)] at hspec
        simp only [executeInst, executeInstAux, liftH, pcInc]
        rw [hspec]
        simp [hrest]
      · intro hin
        rw [if_neg (by simp only [sizeOfVt]; omega)] at hspec
        exact ⟨_, by
          simp only [executeInst, executeInstAux, liftH, pcInc]
          rw [hspec]
          simp only [pcInc, isOverTopLevel_value_cons, hrest, Bool.false_eq_true, if_false]
          rfl⟩
    · intro intc mi pc store f rest b off mem hf hm
      have hrest := currentFrame_ok_not_over hf
      have hspec := loadExtendOp_spec 1 true false off
        ⟨pc.moduleIndex, pc.execAddr, pc.instIndex + 1⟩ store b rest f mem hf hm
      dsimp only
      constructor
      · intro hoob
        rw [if_pos (by  omega)] at hspec
        simp only [executeInst, executeInstAux, liftH, pcInc]
        rw [hspec]
        simp [hrest]
      · intro hin
        rw [if_neg (by  omega)] at hspec
        exact ⟨_, by
          simp only [executeInst, executeInstAux, liftH, pcInc]
          rw [hspec]
          simp only [pcInc, isOverTopLevel_value_cons, hrest, Bool.false_eq_true, if_false]
          rfl⟩
    · intro intc mi pc store f rest b off mem hf hm
      have hrest := currentFrame_ok_not_over hf
      have hspec := loadExtendOp_spec 1 false false off
        ⟨pc.moduleIndex, pc.execAddr, pc.instIndex + 1⟩ store b rest f mem hf hm
      dsimp only
      constructor
      · intro hoob
        rw [if_pos (by  omega)] at hspec
        simp only [executeInst, executeInstAux, liftH, pcInc]
        rw [hspec]
        simp [hrest]
      · intro hin
        rw [if_neg (by  omega)] at hspec
        exact ⟨_, by
          simp only [executeInst, executeInstAux, liftH, pcInc]
          rw [hspec]
          simp only [pcInc, isOverTopLevel_value_cons, hrest, Bool.false_eq_true, if_false]
          rfl⟩
    · intro intc mi pc store f rest b off mem hf hm
      have hrest := currentFrame_ok_not_over hf
      have hspec := loadExtendOp_spec 2 true false off
        ⟨pc.moduleIndex, pc.execAddr, pc.instIndex + 1⟩ store b rest f mem hf hm
      dsimp only
      constructor
      · intro hoob
        rw [if_pos (by  omega)] at hspec
        simp only [executeInst, executeInstAux, liftH, pcInc]
        rw [hspec]
        simp [hrest]
      · intro hin
        rw [if_neg (by  omega)] at hspec
        exact ⟨_, by
          simp only [executeInst, executeInstAux, liftH, pcInc]
          rw [hspec]
          simp only [pcInc, isOverTopLevel_value_cons, hrest, Bool.false_eq_true, if_false]
          rfl⟩
    · intro intc mi pc store f rest b off mem hf hm
      have hrest := currentFrame_ok_not_over hf
      have hspec := loadExtendOp_spec 2 false false off
        ⟨pc.moduleIndex, pc.execAddr, pc.instIndex + 1⟩ store b rest f mem hf hm
      dsimp only
      constructor
      · intro hoob
        rw [if_pos (by  omega)] at hspec
        simp only [executeInst, executeInstAux, liftH, pcInc]
        rw [hspec]
        simp [hrest]
      · intro hin
        rw [if_neg (by  omega)] at hspec
        exact ⟨_, by
          simp only [executeInst, executeInstAux, liftH, pcInc]
          rw [hspec]
          simp only [pcInc, isOverTopLevel_value_cons, hrest, Bool.false_eq_true, if_false]
          rfl⟩
    · intro intc mi pc store f rest b off mem hf hm
      have hrest := currentFrame_ok_not_over hf
      have hspec := loadExtendOp_spec 1 true true off
        ⟨pc.moduleIndex, pc.execAddr, pc.instIndex + 1⟩ store b rest f mem hf hm
      dsimp only
      constructor
      · intro hoob
        rw [if_pos (by  omega)] at hspec
        simp only [executeInst, executeInstAux, liftH, pcInc]
        rw [hspec]
        simp [hrest]
      · intro hin
        rw [if_neg (by  omega)] at hspec
        exact ⟨_, by
          simp only [executeInst, executeInstAux, liftH, pcInc]
          rw [hspec]
          simp only [pcInc, isOverTopLevel_value_cons, hrest, Bool.false_eq_true, if_false]
          rfl⟩
    · intro intc mi pc store f rest b off mem hf hm
      have hrest := currentFrame_ok_not_over hf
      have hspec := loadExtendOp_spec 1 false true off
        ⟨pc.moduleIndex, pc.execAddr, pc.instIndex + 1⟩ store b rest f mem hf hm
      dsimp only
      constructor
      · intro hoob
        rw [if_pos (by  omega)] at hspec
        simp only [executeInst, executeInstAux, liftH, pcInc]
        rw [hspec]
        simp [hrest]
      · intro hin
        rw [if_neg (by  omega)] at hspec
        exact ⟨_, by
          simp only [executeInst, executeInstAux, liftH, pcInc]
          rw [hspec]
          simp only [pcInc, isOverTopLevel_value_cons, hrest, Bool.false_eq_true, if_false]
          rfl⟩
    · intro intc mi pc store f rest b off mem hf hm
      have hrest := currentFrame_ok_not_over hf
      have hspec := loadExtendOp_spec 2 true true off
        ⟨pc.moduleIndex, pc.execAddr, pc.instIndex + 1⟩ store b rest f mem hf hm
      dsimp only
      constructor
      · intro hoob
        rw [if_pos (by  omega)] at hspec
        simp only [executeInst, executeInstAux, liftH, pcInc]
        rw [hspec]
        simp [hrest]
      · intro hin
        rw [if_neg (by  omega)] at hspec
        exact ⟨_, by
          simp only [executeInst, executeInstAux, liftH, pcInc]
          rw [hspec]
          simp only [pcInc, isOverTopLevel_value_cons, hrest, Bool.false_eq_true, if_false]
          rfl⟩
    · intro intc mi pc store f rest b off mem hf hm
      have hrest := currentFrame_ok_not_over hf
      have hspec := loadExtendOp_spec 2 false true off
        ⟨pc.moduleIndex, pc.execAddr, pc.instIndex + 1⟩ store b rest f mem hf hm
      dsimp only
      constructor
      · intro hoob
        rw [if_pos (by  omega)] at hspec
        simp only [executeInst, executeInstAux, liftH, pcInc]
        rw [hspec]
        simp [hrest]
      · intro hin
        rw [if_neg (by  omega)] at hspec
        exact ⟨_, by
          simp only [executeInst, executeInstAux, liftH, pcInc]
          rw [hspec]
          simp only [pcInc, isOverTopLevel_value_cons, hrest, Bool.false_eq_true, if_false]
          rfl⟩
    · intro intc mi pc store f rest b off mem hf hm
      have hrest := currentFrame_ok_not_over hf
      have hspec := loadExtendOp_spec 4 true true off
        ⟨pc.moduleIndex, pc.execAddr, pc.instIndex + 1⟩ store b rest f mem hf hm
      dsimp only
      constructor
      · intro hoob
        rw [if_pos (by  omega)] at hspec
        simp only [executeInst, executeInstAux, liftH, pcInc]
        rw [hspec]
        simp [hrest]
      · intro hin
        rw [if_neg (by  omega)] at hspec
        exact ⟨_, by
          simp only [executeInst, executeInstAux, liftH, pcInc]
          rw [hspec]
          simp only [pcInc, isOverTopLevel_value_cons, hrest, Bool.false_eq_true, if_false]
          rfl⟩
    · intro intc mi pc store f rest b off mem hf hm
      have hrest := currentFrame_ok_not_over hf
      have hspec := loadExtendOp_spec 4 false true off
        ⟨pc.moduleIndex, pc.execAddr, pc.instIndex + 1⟩ store b rest f mem hf hm
      dsimp only
      constructor
      · intro hoob
        rw [if_pos (by  omega)] at hspec
        simp only [executeInst, executeInstAux, liftH, pcInc]
        rw [hspec]
        simp [hrest]
      · intro hin
        rw [if_neg (by  omega)] at hspec
        exact ⟨_, by
          simp only [executeInst, executeInstAux, liftH, pcInc]
          rw [hspec]
          simp only [pcInc, isOverTopLevel_value_cons, hrest, Bool.false_eq_true, if_false]
          rfl⟩
  · intro q hq
    simp only [storeAccessOps, List.mem_cons, List.not_mem_nil, or_false] at hq
    rcases hq with rfl | rfl | rfl | rfl | rfl | rfl | rfl | rfl | rfl
    · intro intc mi pc store f rest v b off mem hv hf hm
      have hrest := currentFrame_ok_not_over hf
      dsimp only at hv
      have hspec := storeOp_spec .i32 off
        ⟨pc.moduleIndex, pc.execAddr, pc.instIndex + 1⟩ store v b rest f mem hv hf hm
      dsimp only
      constructor
      · intro hoob
        rw [if_pos (by simp only [sizeOfVt]; omega)] at hspec
        simp only [executeInst, executeInstAux, liftH, pcInc]
        rw [hspec]
        simp [hrest]
      · intro hin
        rw [if_neg (by simp only [sizeOfVt]; omega)] at hspec
        exact ⟨_, by
          simp only [executeInst, executeInstAux, liftH, pcInc]
          rw [hspec]
          simp only [pcInc, isOverTopLevel_value_cons, hrest, Bool.false_eq_true, if_false]
          rfl⟩
    · intro intc mi pc store f rest v b off mem hv hf hm
      have hrest := currentFrame_ok_not_over hf
      dsimp only at hv
      have hspec := storeOp_spec .i64 off
        ⟨pc.moduleIndex, pc.execAddr, pc.instIndex + 1⟩ store v b rest f mem hv hf hm
      dsimp only
      constructor
      · intro hoob
        rw [if_pos (by simp only [sizeOfVt]; omega)] at hspec
        simp only [executeInst, executeInstAux, liftH, pcInc]
        rw [hspec]
        simp [hrest]
      · intro hin
        rw [if_neg (by simp only [sizeOfVt]; omega)] at hspec
        exact ⟨_, by
          simp only [executeInst, executeInstAux, liftH, pcInc]
          rw [hspec]
          simp only [pcInc, isOverTopLevel_value_cons, hrest, Bool.false_eq_true, if_false]
          rfl⟩
    · intro intc mi pc store f rest v b off mem hv hf hm
      have hrest := currentFrame_ok_not_over hf
      dsimp only at hv
      have hspec := storeOp_spec .f32 off
        ⟨pc.moduleIndex, pc.execAddr, pc.instIndex + 1⟩ store v b rest f mem hv hf hm
      dsimp only
      constructor
      · intro hoob
        rw [if_pos (by simp only [sizeOfVt]; omega)] at hspec
        simp only [executeInst, executeInstAux, liftH, pcInc]
        rw [hspec]
        simp [hrest]
      · intro hin
        rw [if_neg (by simp only [sizeOfVt]; omega)] at hspec
        exact ⟨_, by
          simp only [executeInst, executeInstAux, liftH, pcInc]
          rw [hspec]
          simp only [pcInc, isOverTopLevel_value_cons, hrest, Bool.false_eq_true, if_false]
          rfl⟩
    · intro intc mi pc store f rest v b off mem hv hf hm
      have hrest := currentFrame_ok_not_over hf
      dsimp only at hv
      have hspec := storeOp_spec .f64 off
        ⟨pc.moduleIndex, pc.execAddr, pc.instIndex + 1⟩ store v b rest f mem hv hf hm
      dsimp only
      constructor
      · intro hoob
        rw [if_pos (by simp only [sizeOfVt]; omega)] at hspec
        simp only [executeInst, executeInstAux, liftH, pcInc]
        rw [hspec]
        simp [hrest]
      · intro hin
        rw [if_neg (by simp only [sizeOfVt]; omega)] at hspec
        exact ⟨_, by
          simp only [executeInst, executeInstAux, liftH, pcInc]
          rw [hspec]
          simp only [pcInc, isOverTopLevel_value_cons, hrest, Bool.false_eq_true, if_false]
          rfl⟩
    · intro intc mi pc store f rest v b off mem hv hf hm
      have hrest := currentFrame_ok_not_over hf
      dsimp only at hv
      have hspec := storeWithWidthOp_spec .i32 off 1
        ⟨pc.moduleIndex, pc.execAddr, pc.instIndex + 1⟩ store v b rest f mem hv hf hm
      dsimp only
      constructor
      · intro hoob
        rw [if_pos (by simp only [List.length_take, natToLE_length, leBytes, sizeOfVt]; omega)] at hspec
        simp only [executeInst, executeInstAux, liftH, pcInc]
        rw [hspec]
        simp [hrest]
      · intro hin
        rw [if_neg (by simp only [List.length_take, natToLE_length, leBytes, sizeOfVt]; omega)] at hspec
        exact ⟨_, by
          simp only [executeInst, executeInstAux, liftH, pcInc]
          rw [hspec]
          simp only [pcInc, isOverTopLevel_value_cons, hrest, Bool.false_eq_true, if_false]
          rfl⟩
    · intro intc mi pc store f rest v b off mem hv hf hm
      have hrest := currentFrame_ok_not_over hf
      dsimp only at hv
      have hspec := storeWithWidthOp_spec .i32 off 2
        ⟨pc.moduleIndex, pc.execAddr, pc.instIndex + 1⟩ store v b rest f mem hv hf hm
      dsimp only
      constructor
      · intro hoob
        rw [if_pos (by simp only [List.length_take, natToLE_length, leBytes, sizeOfVt]; omega)] at hspec
        simp only [executeInst, executeInstAux, liftH, pcInc]
        rw [hspec]
        simp [hrest]
      · intro hin
        rw [if_neg (by simp only [List.length_take, natToLE_length, leBytes, sizeOfVt]; omega)] at hspec
        exact ⟨_, by
          simp only [executeInst, executeInstAux, liftH, pcInc]
          rw [hspec]
          simp only [pcInc, isOverTopLevel_value_cons, hrest, Bool.false_eq_true, if_false]
          rfl⟩
    · intro intc mi pc store f rest v b off mem hv hf hm
      have hrest := currentFrame_ok_not_over hf
      dsimp only at hv
      have hspec := storeWithWidthOp_spec .i64 off 1
        ⟨pc.moduleIndex, pc.execAddr, pc.instIndex + 1⟩ store v b rest f mem hv hf hm
      dsimp only
      constructor
      · intro hoob
        rw [if_pos (by simp only [List.length_take, natToLE_length, leBytes, sizeOfVt]; omega)] at hspec
        simp only [executeInst, executeInstAux, liftH, pcInc]
        rw [hspec]
        simp [hrest]
      · intro hin
        rw [if_neg (by simp only [List.length_take, natToLE_length, leBytes, sizeOfVt]; omega)] at hspec
        exact ⟨_, by
          simp only [executeInst, executeInstAux, liftH, pcInc]
          rw [hspec]
          simp only [pcInc, isOverTopLevel_value_cons, hrest, Bool.false_eq_true, if_false]
          rfl⟩
    · intro intc mi pc store f rest v b off mem hv hf hm
      have hrest := currentFrame_ok_not_over hf
      dsimp only at hv
      have hspec := storeWithWidthOp_spec .i64 off 2
        ⟨pc.moduleIndex, pc.execAddr, pc.instIndex + 1⟩ store v b rest f mem hv hf hm
      dsimp only
      constructor
      · intro hoob
        rw [if_pos (by simp only [List.length_take, natToLE_length, leBytes, sizeOfVt]; omega)] at hspec
        simp only [executeInst, executeInstAux, liftH, pcInc]
        rw [hspec]
        simp [hrest]
      · intro hin
        rw [if_neg (by simp only [List.length_take, natToLE_length, leBytes, sizeOfVt]; omega)] at hspec
        exact ⟨_, by
          simp only [executeInst, executeInstAux, liftH, pcInc]
          rw [hspec]
          simp only [pcInc, isOverTopLevel_value_cons, hrest, Bool.false_eq_true, if_false]
          rfl⟩
    · intro intc mi pc store f rest v b off mem hv hf hm
      have hrest := currentFrame_ok_not_over hf
      dsimp only at hv
      have hspec := storeWithWidthOp_spec .i64 off 4
        ⟨pc.moduleIndex, pc.execAddr, pc.instIndex + 1⟩ store v b rest f mem hv hf hm
      dsimp only
      constructor
      · intro hoob
        rw [if_pos (by simp only [List.length_take, natToLE_length, leBytes, sizeOfVt]; omega)] at hspec
        simp only [executeInst, executeInstAux, liftH, pcInc]
        rw [hspec]
        simp [hrest]
      · intro hin
        rw [if_neg (by simp only [List.length_take, natToLE_length, leBytes, sizeOfVt]; omega)] at hspec
        exact ⟨_, by
          simp only [executeInst, executeInstAux, liftH, pcInc]
          rw [hspec]
          simp only [pcInc, isOverTopLevel_value_cons, hrest, Bool.false_eq_true, if_false]
          rfl⟩


/-- Witness for C1 amended: on a 4-byte memory, `i32.load` at base 0 and
offset 0 succeeds, while base 2 and offset 2 makes `2 + 2 + 4 > 4` and
traps `Memory(OutOfBounds)`. -/
theorem c1_effective_address_amended_witness :
    executeInst nopInterceptor (.i32Load ⟨2⟩) 0
        ⟨⟨0, 0, 0⟩, [.value (.I32 2), .activation ⟨0, 0, [], none⟩],
          ⟨[], [], [⟨[0, 0, 0, 0], none⟩], []⟩⟩ =
      some (.error (.memory .outOfBounds),
        ⟨⟨0, 0, 1⟩, [.activation ⟨0, 0, [], none⟩],
          ⟨[], [], [⟨[0, 0, 0, 0], none⟩], []⟩⟩) ∧
    ∃ v, executeInst nopInterceptor (.i32Load ⟨0⟩) 0
        ⟨⟨0, 0, 0⟩, [.value (.I32 0), .activation ⟨0, 0, [], none⟩],
          ⟨[], [], [⟨[0, 0, 0, 0], none⟩], []⟩⟩ =
      some (.ok .next,
        ⟨⟨0, 0, 1⟩, [.value v, .activation ⟨0, 0, [], none⟩],
          ⟨[], [], [⟨[0, 0, 0, 0], none⟩], []⟩⟩) :=
  ⟨((c1_effective_address_amended.1 (.i32Load, 4) (List.mem_cons_self _ _) nopInterceptor 0
      ⟨0, 0, 0⟩ ⟨[], [], [⟨[0, 0, 0, 0], none⟩], []⟩ ⟨0, 0, [], none⟩
      [.activation ⟨0, 0, [], none⟩] 2 2 ⟨[0, 0, 0, 0], none⟩ rfl rfl).1
      (by decide)),
   ((c1_effective_address_amended.1 (.i32Load, 4) (List.mem_cons_self _ _) nopInterceptor 0
      ⟨0, 0, 0⟩ ⟨[], [], [⟨[0, 0, 0, 0], none⟩], []⟩ ⟨0, 0, [], none⟩
      [.activation ⟨0, 0, [], none⟩] 0 0 ⟨[0, 0, 0, 0], none⟩ rfl rfl).2
      (by decide))⟩

end WasmVm
